import Mathlib

/-!
Verification development for the menu-js repository.

The repository implements an accessible menu-button pattern in two variants:
a full variant (`src/unnamed/part_000`, class `Menu` with submenus,
checkbox/radio items, positioning and animation) and a lite variant
(`src/menu.ts`, class `Menu` with a button, a list and flat items).

This file gives a shallow embedding of the state and the handlers the
claims are about.  DOM elements are identified by natural numbers; DOM
attributes form a map from element id and attribute name to an optional
string value.  Each handler is embedded as a pure function on that state,
translated line by line from the source.  Asynchronous steps of the source
that a handler schedules for later (requestAnimationFrame attribute
writes, animation `finish` callbacks, `computePosition` promise callbacks)
touch only state that no intervening read of the same handler cascade
observes; they are modelled at the point of scheduling, and the deferred
animation-finish / promise writes (style cleanup, popover coordinates) are
outside every claim and are not modelled.
-/

/-- DOM attribute state: element id → attribute name → value. -/
abbrev AttrMap := Nat → String → Option String

/-- `element.setAttribute(k, v)`. -/
def setAttr (a : AttrMap) (e : Nat) (k v : String) : AttrMap :=
  fun e2 k2 => if e2 = e ∧ k2 = k then some v else a e2 k2

/-- `element.removeAttribute(k)`. -/
def removeAttr (a : AttrMap) (e : Nat) (k : String) : AttrMap :=
  fun e2 k2 => if e2 = e ∧ k2 = k then none else a e2 k2

/-- `isFocusable` (identical in both variants):
`element.getAttribute('aria-disabled') !== 'true' && !element.hasAttribute('disabled')`. -/
def isFocusable (a : AttrMap) (e : Nat) : Bool :=
  !(a e "aria-disabled" == some "true") && (a e "disabled" == none)

mutual
/-- Static data of one constructed full-variant `Menu` instance:
`rootElement`, optional `triggerElement`, `listElement`, `itemElements`
and the owned `submenus` (full variant, `src/unnamed/part_000`). -/
inductive MTree : Type where
  | mk (rootId : Nat) (triggerId : Option Nat) (listId : Nat)
      (items : List Nat) (subs : MForest)
/-- The `submenus` array of a full-variant instance. -/
inductive MForest : Type where
  | nil
  | cons (hd : MTree) (tl : MForest)
end

def MTree.rootId : MTree → Nat
  | .mk r _ _ _ _ => r

def MTree.triggerId : MTree → Option Nat
  | .mk _ t _ _ _ => t

def MTree.listId : MTree → Nat
  | .mk _ _ l _ _ => l

def MTree.items : MTree → List Nat
  | .mk _ _ _ its _ => its

def MTree.subs : MTree → MForest
  | .mk _ _ _ _ s => s

mutual
/-- All instances in an instance tree (the instance itself and, recursively,
its submenus). -/
def MTree.insts : MTree → List MTree
  | .mk r t l its subs => .mk r t l its subs :: MForest.insts subs
/-- All instances in a forest of instance trees. -/
def MForest.insts : MForest → List MTree
  | .nil => []
  | .cons h t => MTree.insts h ++ MForest.insts t
end

/-- The trigger element ids of all instances in an instance tree. -/
def MTree.triggers (m : MTree) : List Nat :=
  m.insts.filterMap MTree.triggerId

/-- Mutable runtime state of the full variant, per the fields the handlers
read and write: the DOM attribute map, the active (focused) element, the
per-instance pending `submenuTimer` (keyed by the instance root id), the
per-instance in-flight `animation` and the `cleanupPopover` subscription
(both keyed by the instance list id), and the list-element style map. -/
structure St where
  attr : AttrMap
  focus : Option Nat
  timer : Nat → Bool
  anim : Nat → Bool
  cleanup : Nat → Bool
  style : AttrMap

/-- `this.rootElement.contains(this.getActiveElement())`: DOM containment
of the active element, `false` when there is no active element.  DOM
containment itself (`Element.contains`, reflexive descendant test) is a
static property of the page and is passed in as a boolean function `co`. -/
def containsFocus (co : Nat → Nat → Bool) (root : Nat) (focus : Option Nat) : Bool :=
  match focus with
  | some f => co root f
  | none => false

mutual
/-- `toggle(false)` of the full variant (the `close()` path), translated
from `src/unnamed/part_000` lines 216-278:
guard on the trigger's current `aria-expanded`; write `aria-expanded`
"false" (the requestAnimationFrame write, applied at scheduling time);
if there are submenus, clear the pending `submenuTimer` and close each
submenu; if the trigger exists and the active element is inside the root,
focus the trigger; then (trigger present only) cancel and restart the
opacity animation and tear down the popover auto-update subscription. -/
def toggleOff (co : Nat → Nat → Bool) : MTree → St → St
  | .mk r t l _its subs, st =>
    if (match t with
        | some tt => st.attr tt "aria-expanded" == some "false"
        | none => false) then
      st
    else
      let st1 : St := match t with
        | some tt => { st with attr := setAttr st.attr tt "aria-expanded" "false" }
        | none => st
      let st2 : St := match subs with
        | .nil => st1
        | .cons _ _ =>
          closeForest co subs
            { st1 with timer := fun x => if x = r then false else st1.timer x }
      let st3 : St :=
        if t.isSome && containsFocus co r st2.focus then
          { st2 with focus := t }
        else st2
      match t with
      | none => st3
      | some _ =>
        let st4 : St := { st3 with anim := fun x => if x = l then true else st3.anim x }
        if st4.cleanup l then
          { st4 with cleanup := fun x => if x = l then false else st4.cleanup x }
        else st4
/-- `this.submenus.forEach(submenu => submenu.close())`. -/
def closeForest (co : Nat → Nat → Bool) : MForest → St → St
  | .nil, st => st
  | .cons m ms, st => closeForest co ms (toggleOff co m st)
end

/-- `toggle(true)` of the full variant (the `open()` path), translated from
`src/unnamed/part_000` lines 216-278: guard on the trigger's current
`aria-expanded`; write `aria-expanded` "true"; exclusivity sweep: close
every registered menu whose root does not contain this root; show the
list (`display: block`, `opacity: 0`); when a trigger exists, record the
popover auto-update subscription (`updatePopover`; the asynchronous
`computePosition` style writes are not modelled); focus the first
focusable item if any; then (trigger present only) cancel and restart the
opacity animation. -/
def toggleOn (co : Nat → Nat → Bool) (reg : List MTree) (m : MTree) (st : St) : St :=
  match m with
  | .mk r t l its _subs =>
    if (match t with
        | some tt => st.attr tt "aria-expanded" == some "true"
        | none => false) then
      st
    else
      let st1 : St := match t with
        | some tt => { st with attr := setAttr st.attr tt "aria-expanded" "true" }
        | none => st
      let st2 : St :=
        (reg.filter (fun b => !(co b.rootId r))).foldl
          (fun s b => toggleOff co b s) st1
      let st3 : St :=
        { st2 with style := setAttr (setAttr st2.style l "display" "block") l "opacity" "0" }
      let st4 : St := match t with
        | some _ =>
          if st3.cleanup l then st3
          else { st3 with cleanup := fun x => if x = l then true else st3.cleanup x }
        | none => st3
      let st5 : St := match its.find? (fun i => isFocusable st4.attr i) with
        | some f => { st4 with focus := some f }
        | none => st4
      match t with
      | none => st5
      | some _ => { st5 with anim := fun x => if x = l then true else st5.anim x }

/-- Public `open()` of the full variant: `this.toggle(true)`. -/
def openFull (co : Nat → Nat → Bool) (reg : List MTree) (m : MTree) (st : St) : St :=
  toggleOn co reg m st

/-- Public `close()` of the full variant: `this.toggle(false)`. -/
def closeFull (co : Nat → Nat → Bool) (m : MTree) (st : St) : St :=
  toggleOff co m st

/-- `resetTabIndex(force)` of the full variant (`src/unnamed/part_000`
lines 203-214), acting on the attribute map: with a trigger (or `force`)
every item gets tabindex "-1"; otherwise the first focusable item gets
"0" and the rest "-1". -/
def resetTabIndexFull (triggerPresent force : Bool) (items : List Nat) (a : AttrMap) : AttrMap :=
  if triggerPresent || force then
    items.foldl (fun acc i => setAttr acc i "tabindex" "-1") a
  else
    let first := items.find? (fun i => isFocusable a i)
    items.foldl (fun acc i => setAttr acc i "tabindex" (if first == some i then "0" else "-1")) a

/-- `resetTabIndex()` of the lite variant (`src/menu.ts` lines 77-80),
acting on the attribute map: first remove tabindex from every item, then
for each item in order set tabindex "0" when the item is focusable and no
focusable item currently carries tabindex "0" (`findIndex === -1`),
otherwise "-1". -/
def resetTabIndexLite (items : List Nat) (a : AttrMap) : AttrMap :=
  let a1 := items.foldl (fun acc i => removeAttr acc i "tabindex") a
  items.foldl
    (fun acc i =>
      setAttr acc i "tabindex"
        (if isFocusable acc i
            && !((items.filter (fun j => isFocusable acc j)).any
                  (fun j => acc j "tabindex" == some "0")) then
          "0"
        else "-1"))
    a1

/-- Static data of one lite-variant `Menu` instance (`src/menu.ts`):
`rootElement`, optional `buttonElement`, `listElement`, `itemElements`,
and the optional `data-menu-name`. -/
structure LMenu where
  rootId : Nat
  buttonId : Option Nat
  listId : Nat
  items : List Nat
  name : Option String

/-- Mutable runtime state of the lite variant: attributes, the active
element, and the static `Menu.hasOpen` name map. -/
structure LSt where
  attr : AttrMap
  focus : Option Nat
  hasOpen : String → Bool

/-- `toggle(isOpen)` of the lite variant (`src/menu.ts` lines 82-85):
update `Menu.hasOpen[name]` when named, then write the button's
`aria-expanded`.  (The source dereferences `buttonElement` here
unconditionally; `toggle` is only reached from `open`/`close`, which both
return first when there is no button.) -/
def toggleLite (m : LMenu) (isOpen : Bool) (st : LSt) : LSt :=
  let st1 : LSt := match m.name with
    | some n => { st with hasOpen := fun s => if s = n then isOpen else st.hasOpen s }
    | none => st
  match m.buttonId with
  | some b =>
    { st1 with attr := setAttr st1.attr b "aria-expanded" (if isOpen then "true" else "false") }
  | none => st1

/-- Public `open()` of the lite variant (`src/menu.ts` lines 174-177):
no button or `aria-expanded` already "true" is a no-op. -/
def openLite (m : LMenu) (st : LSt) : LSt :=
  match m.buttonId with
  | none => st
  | some b =>
    if st.attr b "aria-expanded" == some "true" then st
    else toggleLite m true st

/-- Public `close()` of the lite variant (`src/menu.ts` lines 179-183):
no button or `aria-expanded` not reading "true" is a no-op; otherwise
toggle off and, when the active element is inside the root, focus the
button. -/
def closeLite (co : Nat → Nat → Bool) (m : LMenu) (st : LSt) : LSt :=
  match m.buttonId with
  | none => st
  | some b =>
    if !(st.attr b "aria-expanded" == some "true") then st
    else
      let st1 := toggleLite m false st
      if containsFocus co m.rootId st1.focus then { st1 with focus := some b }
      else st1

/-!  Static DOM structure for selector queries.  `ancestors e` lists the
ancestor chain of element `e` starting at `e` itself (as `Element.closest`
starts its search at the element), and `matchesSel e sel` says whether `e`
matches CSS selector `sel`. -/

/-- Static DOM structure: ancestor chains and selector matching. -/
structure Dom where
  ancestors : Nat → List Nat
  matchesSel : Nat → String → Bool

/-- `element.closest(sel)`: the nearest ancestor-or-self matching `sel`. -/
def closestD (d : Dom) (sel : String) (e : Nat) : Option Nat :=
  (d.ancestors e).find? (fun x => d.matchesSel x sel)

/-- `a.contains(b)`: `a` is an ancestor-or-self of `b`. -/
def containsD (d : Dom) (a b : Nat) : Bool :=
  (d.ancestors b).contains a

/-- The group an item is keyed under at construction time
(`src/unnamed/part_000` lines 109-114): `item.closest(selector.group)`,
replaced by the instance root when absent or not inside the root. -/
def resolvedGroupInit (d : Dom) (gsel : String) (rootId : Nat) (item : Nat) : Nat :=
  match closestD d gsel item with
  | some g => if containsD d rootId g then g else rootId
  | none => rootId

/-- One step of building `radioItemElementsByGroup`: push `i` onto the
entry for key `g`, creating the entry at the end on first use (JS `Map`
insertion order). -/
def addToGroup : List (Nat × List Nat) → Nat → Nat → List (Nat × List Nat)
  | [], g, i => [(g, [i])]
  | (k, l) :: rest, g, i =>
    if k = g then (k, l ++ [i]) :: rest else (k, l) :: addToGroup rest g i

/-- `radioItemElementsByGroup` as built by the constructor
(`src/unnamed/part_000` lines 107-116). -/
def buildGroups (d : Dom) (gsel : String) (rootId : Nat) (radios : List Nat) :
    List (Nat × List Nat) :=
  radios.foldl (fun gs i => addToGroup gs (resolvedGroupInit d gsel rootId i) i) []

/-- `Map.prototype.get`. -/
def lookupGroup (gs : List (Nat × List Nat)) (g : Nat) : Option (List Nat) :=
  (gs.find? (fun p => p.1 == g)).map (fun p => p.2)

/-- The runtime error raised by a JS null/undefined dereference. -/
inductive JsError : Type where
  | typeError
deriving DecidableEq

/-- `handleRadioItemClick` (`src/unnamed/part_000` lines 478-483): look up
`radioItemElementsByGroup.get(target.closest(selector.group) || rootElement)`
— a missing entry makes the non-null assertion dereference `undefined` —
and set `aria-checked` on each entry item to whether it is the target. -/
def handleRadioItemClick (d : Dom) (gsel : String) (rootId : Nat)
    (groups : List (Nat × List Nat)) (a : AttrMap) (target : Nat) :
    Except JsError AttrMap :=
  match lookupGroup groups ((closestD d gsel target).getD rootId) with
  | none => .error .typeError
  | some l =>
    .ok (l.foldl
      (fun acc i => setAttr acc i "aria-checked" (if i == target then "true" else "false"))
      a)

/-- `handleCheckboxItemClick` (`src/unnamed/part_000` lines 473-476):
`item.setAttribute('aria-checked', String(item.getAttribute('aria-checked') === 'false'))`. -/
def handleCheckboxItemClick (a : AttrMap) (target : Nat) : AttrMap :=
  setAttr a target "aria-checked"
    (if a target "aria-checked" == some "false" then "true" else "false")

/-!  Keyboard handling on the list (full variant `handleListKeyDown`,
`src/unnamed/part_000` lines 381-447).  The handler's observable outcome
is one of: do nothing, close the menu, synthesize a click on the focused
item, move focus to an item, or crash on an undefined dereference. -/

/-- Outcome of a list keydown. -/
inductive KAction : Type where
  | noop
  | doClose
  | doClick
  | doFocus (e : Nat)
  | errA
deriving DecidableEq

/-- The lowercased key character of a single-character non-whitespace key
(`/^\S$/i.test(key)` combined with `key.toLowerCase()`). -/
def keyChar (k : String) : Option Char :=
  match k.toList with
  | [c] => if c.isWhitespace then none else some c.toLower
  | _ => none

/-- JS `Array.prototype.indexOf`: the first index of `x`, `-1` if absent. -/
def jsIndexOf (l : List Nat) (x : Nat) : Int :=
  match l.findIdx? (fun y => y == x) with
  | some i => (i : Int)
  | none => -1

/-- JS `Array.prototype.findIndex`. -/
def jsFindIdx (l : List Nat) (p : Nat → Bool) : Int :=
  match l.findIdx? p with
  | some i => (i : Int)
  | none => -1

/-- The item's initial per `src/unnamed/part_000` lines 97-103:
`item.textContent!.trim().charAt(0).toLowerCase()` guarded by
`/\S/.test(initial)`.  `trim().charAt(0)` is the first non-whitespace
character of the text (the `/\S/` guard only rejects the empty
`charAt(0)` of all-whitespace text), so the registered initial is the
lowercased first non-whitespace character, when one exists. -/
def initialOf (s : String) : Option Char :=
  (s.toList.find? (fun c => !c.isWhitespace)).map Char.toLower

/-- One step of building `itemElementsByInitial`: push `i` onto the entry
for character `c`, creating the entry at the end on first use. -/
def addInit : List (Char × List Nat) → Char → Nat → List (Char × List Nat)
  | [], c, i => [(c, [i])]
  | (k, l) :: rest, c, i =>
    if k = c then (k, l ++ [i]) :: rest else (k, l) :: addInit rest c i

/-- `itemElementsByInitial` as built by the full-variant constructor
(`src/unnamed/part_000` lines 95-104), from each item's text content. -/
def buildByInitial (text : Nat → String) (items : List Nat) : List (Char × List Nat) :=
  items.foldl
    (fun bi i =>
      match initialOf (text i) with
      | some c => addInit bi c i
      | none => bi)
    []

/-- `itemElementsByInitial[c]`. -/
def lookupInit (bi : List (Char × List Nat)) (c : Char) : Option (List Nat) :=
  (bi.find? (fun p => p.1 == c)).map (fun p => p.2)

/-- `handleListKeyDown` of the full variant (`src/unnamed/part_000` lines
381-447), as a function of the instance data (`trigger`, `isSubmenu`,
`items`, `itemElementsByInitial`), the attribute state, the active
element and the key event; returns the handler's outcome. -/
def handleListKeyDown (trigger : Option Nat) (isSub : Bool) (items : List Nat)
    (bi : List (Char × List Nat)) (a : AttrMap) (active : Option Nat)
    (shiftKey : Bool) (key : String) : KAction :=
  if trigger == none && shiftKey && key == "Tab" then .noop else
  let keys := ["Tab", "Enter", "Escape", " ", "End", "Home", "ArrowUp", "ArrowDown"]
    ++ (if isSub then ["ArrowLeft"] else [])
  let typeAheadOk : Bool :=
    match keyChar key with
    | some c =>
      match lookupInit bi c with
      | some l => (l.find? (fun i => isFocusable a i)).isSome
      | none => false
    | none => false
  if !(keys.contains key) && !(shiftKey && key == "Tab") && !typeAheadOk then .noop else
  if !shiftKey && key == "Tab" then .noop else
  let focusables := items.filter (fun i => isFocusable a i)
  let length : Int := (focusables.length : Int)
  match active with
  | none => .noop
  | some current =>
    let currentIndex := jsIndexOf focusables current
    if currentIndex == -1 then .noop else
    if key == "Tab" || key == "Escape" || key == "ArrowLeft" then .doClose else
    if key == "Enter" || key == " " then .doClick else
    let tgt : List Nat × Int :=
      if key == "End" then (focusables, length - 1)
      else if key == "Home" then (focusables, 0)
      else if key == "ArrowUp" then (focusables, (currentIndex - 1 + length) % length)
      else if key == "ArrowDown" then (focusables, (currentIndex + 1) % length)
      else
        match keyChar key with
        | some c =>
          match lookupInit bi c with
          | some l =>
            let targetFocusables := l.filter (fun i => isFocusable a i)
            let foundIndex :=
              jsFindIdx targetFocusables (fun f => jsIndexOf focusables f > currentIndex)
            (targetFocusables, if foundIndex != -1 then foundIndex else 0)
          | none => ([], 0)
        | none => ([], 0)
    match tgt.1.get? tgt.2.toNat with
    | some f => .doFocus f
    | none => .errA

/-!  Construction (claim C3).  `Markup` packages what the constructor's
selector queries find in the root's subtree: the trigger/button element,
the list element, the item elements and each item's text content. -/

/-- Selector-query results for one root. -/
structure Markup where
  trigger : Option Nat
  list : Option Nat
  items : List Nat
  text : Nat → String

/-- Events with a listener attached, as (element id, event type); the
document is element 0 here. -/
abbrev Listeners := List (Nat × String)

/-- The lite-variant constructor (`src/menu.ts` lines 21-41, `initialize`
lines 43-71): when no list or no items are found it returns before
`initialize`, attaching no listeners and touching no attributes.
Otherwise `initialize` attaches the document/root/button/list listeners,
writes the trigger/list wiring attributes (the random id suffix is passed
in as `rnd`), builds `itemElementsByInitial` (writing
`aria-keyshortcuts` for items with an alphabetic initial, lines 62-68),
resets the roving tabindex and marks the root initialized. -/
def constructLite (rootId : Nat) (mk : Markup) (a : AttrMap) (rnd : String) :
    AttrMap × Listeners × Bool :=
  match mk.list with
  | none => (a, [], false)
  | some listId =>
    if mk.items.isEmpty then (a, [], false)
    else
      let ls : Listeners :=
        [(0, "pointerdown"), (rootId, "focusout")]
        ++ (match mk.trigger with
            | some b => [(b, "pointerover"), (b, "click"), (b, "keydown")]
            | none => [])
        ++ [(listId, "keydown")]
      let a1 : AttrMap := match mk.trigger with
        | some b =>
          let listIdAttr := match a listId "id" with
            | some s => if s ≠ "" then s else "menu-list-" ++ rnd
            | none => "menu-list-" ++ rnd
          let a2 := setAttr a listId "id" listIdAttr
          let a3 := setAttr a2 b "aria-controls" listIdAttr
          let a4 := setAttr a3 b "aria-expanded" "false"
          let a5 := setAttr a4 b "aria-haspopup" "menu"
          let btnId := match a5 b "id" with
            | some s => if s ≠ "" then s else "menu-button-" ++ rnd
            | none => "menu-button-" ++ rnd
          let a6 := setAttr a5 b "id" btnId
          let a7 := setAttr a6 b "tabindex" (if isFocusable a6 b then "0" else "-1")
          setAttr a7 listId "aria-labelledby"
            (((a7 listId "aria-labelledby").getD "" ++ " " ++ btnId).trim)
        | none => a
      let a8 := mk.items.foldl
        (fun acc i =>
          match initialOf (mk.text i) with
          | some c => if c.isAlpha then setAttr acc i "aria-keyshortcuts" (String.mk [c]) else acc
          | none => acc)
        a1
      let a9 := resetTabIndexLite mk.items a8
      (setAttr a9 rootId "data-menu-initialized" "", ls, true)

/-- The full-variant constructor (`src/unnamed/part_000` lines 46-134):
`this.itemElements = [...this.listElement.querySelectorAll(...)]` is
evaluated before `initialize`'s missing-list guard, so a root with no
list dereferences `null` and raises a TypeError.  With a list but no
items, the initial-letter pass writes nothing and `initialize`
(lines 136-139) returns at its guard: no listeners, no attribute writes.
With items present, the constructor writes `aria-keyshortcuts` for items
with a non-whitespace initial and `initialize` attaches listeners and
performs its attribute wiring (modelled through the trigger/list/item
writes and the tabindex reset; construction of child submenu instances
recurses into further roots and is not needed by any claim). -/
def constructFull (rootId : Nat) (mk : Markup) (a : AttrMap) (rnd : String) :
    Except JsError (AttrMap × Listeners × Bool) :=
  match mk.list with
  | none => .error .typeError
  | some listId =>
    let a1 := mk.items.foldl
      (fun acc i =>
        match initialOf (mk.text i) with
        | some c => setAttr acc i "aria-keyshortcuts" (String.mk [c])
        | none => acc)
      a
    if mk.items.isEmpty then .ok (a1, [], false)
    else
      let ls : Listeners :=
        [(0, "pointerdown"), (rootId, "focusin"), (rootId, "focusout")]
        ++ (match mk.trigger with
            | some t => [(t, "click"), (t, "keydown")]
            | none => [])
        ++ [(listId, "keydown")]
        ++ mk.items.flatMap
            (fun i => [(i, "blur"), (i, "focus"), (i, "pointerout"), (i, "pointerover")])
        ++ (mk.items.filter (fun i => a i "role" == some "menuitemcheckbox")).map
            (fun i => (i, "click"))
        ++ (mk.items.filter (fun i => a i "role" == some "menuitemradio")).map
            (fun i => (i, "click"))
      let a2 : AttrMap := match mk.trigger with
        | some t =>
          let listIdAttr := match a1 listId "id" with
            | some s => if s ≠ "" then s else "menu-list-" ++ rnd
            | none => "menu-list-" ++ rnd
          let b1 := setAttr a1 listId "id" listIdAttr
          let b2 := setAttr b1 t "aria-controls" listIdAttr
          let b3 := setAttr b2 t "aria-expanded" "false"
          let b4 := setAttr b3 t "aria-haspopup" "true"
          let trigIdAttr := match b4 t "id" with
            | some s => if s ≠ "" then s else "menu-trigger-" ++ rnd
            | none => "menu-trigger-" ++ rnd
          let b5 := setAttr b4 t "id" trigIdAttr
          let b6 := setAttr b5 t "tabindex" (if isFocusable b5 t then "0" else "-1")
          setAttr b6 listId "aria-labelledby"
            (((b6 listId "aria-labelledby").getD "" ++ " " ++ trigIdAttr).trim)
        | none => a1
      let a3 := setAttr a2 listId "role" "menu"
      let a4 := mk.items.foldl
        (fun acc i =>
          if acc i "role" == some "menuitemcheckbox" || acc i "role" == some "menuitemradio"
          then acc
          else setAttr acc i "role" "menuitem")
        a3
      let a5 := resetTabIndexFull mk.trigger.isSome false mk.items a4
      .ok (setAttr a5 rootId "data-menu-initialized" "", ls, true)


/-!  Generic lemmas about attribute folds. -/

theorem setAttr_same (a : AttrMap) (e : Nat) (k v : String) :
    setAttr a e k v e k = some v := by
  simp [setAttr]

theorem setAttr_other (a : AttrMap) (e : Nat) (k v : String) (e2 : Nat) (k2 : String)
    (h : ¬(e2 = e ∧ k2 = k)) : setAttr a e k v e2 k2 = a e2 k2 := by
  simp [setAttr, h]

theorem foldl_setAttr_value (k : String) (f : Nat → String) (l : List Nat)
    (a : AttrMap) (e : Nat) (k2 : String) :
    (l.foldl (fun acc i => setAttr acc i k (f i)) a) e k2
      = if e ∈ l ∧ k2 = k then some (f e) else a e k2 := by
  induction l generalizing a with
  | nil => simp
  | cons x xs ih =>
    simp only [List.foldl_cons, ih, List.mem_cons]
    by_cases hk : k2 = k
    · by_cases hx : e ∈ xs
      · simp [hx, hk]
      · by_cases he : e = x
        · simp [setAttr, hx, he, hk]
        · simp [setAttr, hx, he, hk]
    · simp [setAttr, hk]

theorem foldl_removeAttr_value (k : String) (l : List Nat)
    (a : AttrMap) (e : Nat) (k2 : String) :
    (l.foldl (fun acc i => removeAttr acc i k) a) e k2
      = if e ∈ l ∧ k2 = k then none else a e k2 := by
  induction l generalizing a with
  | nil => simp
  | cons x xs ih =>
    simp only [List.foldl_cons, ih, List.mem_cons]
    by_cases hk : k2 = k
    · by_cases hx : e ∈ xs
      · simp [hx, hk]
      · by_cases he : e = x
        · simp [removeAttr, hx, he, hk]
        · simp [removeAttr, hx, he, hk]
    · simp [removeAttr, hk]

theorem isFocusable_congr (a1 a2 : AttrMap) (i : Nat)
    (h1 : a1 i "aria-disabled" = a2 i "aria-disabled")
    (h2 : a1 i "disabled" = a2 i "disabled") :
    isFocusable a1 i = isFocusable a2 i := by
  simp [isFocusable, h1, h2]

/-!  Claim C9: checkbox click. -/

/-- Claim C9, counterexample: the claim says a click on an unchecked
checkbox item makes it checked.  For an item whose `aria-checked`
attribute is absent (an unchecked item), the handler writes
`String(null === 'false')`, i.e. "false": the item stays unchecked. -/
theorem claim_C9_counterexample :
    (fun _ _ => none : AttrMap) 5 "aria-checked" ≠ some "true"
    ∧ handleCheckboxItemClick (fun _ _ => none) 5 5 "aria-checked" = some "false" := by
  exact ⟨by simp, by decide⟩

/-- Claim C9 (amended): a checkbox item click writes "true" to the
clicked item's `aria-checked` exactly when the attribute previously read
"false", and writes "false" otherwise (in particular an item with the
attribute absent ends at "false", i.e. stays unchecked); every other
element and every other attribute of the clicked item are unchanged. -/
theorem claim_C9_amended (a : AttrMap) (t : Nat) :
    (a t "aria-checked" = some "true" →
      handleCheckboxItemClick a t t "aria-checked" = some "false")
    ∧ (a t "aria-checked" = some "false" →
      handleCheckboxItemClick a t t "aria-checked" = some "true")
    ∧ (a t "aria-checked" = none →
      handleCheckboxItemClick a t t "aria-checked" = some "false")
    ∧ (∀ e k, ¬(e = t ∧ k = "aria-checked") →
      handleCheckboxItemClick a t e k = a e k) := by
  refine ⟨fun h => ?_, fun h => ?_, fun h => ?_, fun e k h => ?_⟩
  · simp [handleCheckboxItemClick, h, setAttr]
  · simp [handleCheckboxItemClick, h, setAttr]
  · simp [handleCheckboxItemClick, h, setAttr]
  · simp [handleCheckboxItemClick, setAttr, h]

/-- Witness for claim C9's amended theorem at concrete inputs. -/
theorem claim_C9_witness :
    handleCheckboxItemClick (fun e k => if e = 7 ∧ k = "aria-checked" then some "true" else none)
      7 7 "aria-checked" = some "false"
    ∧ handleCheckboxItemClick (fun e k => if e = 7 ∧ k = "aria-checked" then some "false" else none)
      7 7 "aria-checked" = some "true"
    ∧ handleCheckboxItemClick (fun _ _ => none) 7 7 "aria-checked" = some "false"
    ∧ handleCheckboxItemClick (fun _ _ => none) 7 8 "aria-checked" = none := by
  refine ⟨?_, ?_, ?_, ?_⟩
  · exact (claim_C9_amended _ 7).1 (by simp)
  · exact (claim_C9_amended _ 7).2.1 (by simp)
  · exact (claim_C9_amended _ 7).2.2.1 (by simp)
  · exact (claim_C9_amended _ 7).2.2.2 8 "aria-checked" (by simp)

/-!  Claim C2: open/close idempotence. -/

/-- Claim C2, counterexample: the claim says `close()` is a no-op whenever
the trigger's expanded attribute does not read "true".  In the full
variant the guard compares against the string "false" only, so a `close()`
on an instance whose `aria-expanded` attribute is absent (which does not
read "true") proceeds and observably writes the attribute to "false". -/
theorem claim_C2_counterexample :
    ((fun _ _ => none : AttrMap) 1 "aria-expanded" = none)
    ∧ (closeFull (fun _ _ => false) (.mk 0 (some 1) 2 [3] .nil)
        { attr := fun _ _ => none, focus := none, timer := fun _ => false,
          anim := fun _ => false, cleanup := fun _ => false,
          style := fun _ _ => none }).attr 1 "aria-expanded" = some "false" := by
  exact ⟨rfl, by decide⟩

/-- Claim C2 (amended): `open()` on an instance whose trigger's expanded
attribute reads "true" is a no-op in both variants, and `close()` is a
no-op in the lite variant whenever the attribute does not read "true"; in
the full variant `close()` is a no-op exactly when the attribute reads
"false" (a full-variant `close()` with the attribute absent or malformed
proceeds and mutates state, per the counterexample). -/
theorem claim_C2_amended :
    (∀ (co : Nat → Nat → Bool) (reg : List MTree) (m : MTree) (st : St) (t : Nat),
      m.triggerId = some t → st.attr t "aria-expanded" = some "true" →
      openFull co reg m st = st)
    ∧ (∀ (co : Nat → Nat → Bool) (m : MTree) (st : St) (t : Nat),
      m.triggerId = some t → st.attr t "aria-expanded" = some "false" →
      closeFull co m st = st)
    ∧ (∀ (m : LMenu) (st : LSt) (b : Nat),
      m.buttonId = some b → st.attr b "aria-expanded" = some "true" →
      openLite m st = st)
    ∧ (∀ (co : Nat → Nat → Bool) (m : LMenu) (st : LSt) (b : Nat),
      m.buttonId = some b → ¬(st.attr b "aria-expanded" = some "true") →
      closeLite co m st = st) := by
  refine ⟨?_, ?_, ?_, ?_⟩
  · intro co reg m st t ht h
    cases m with
    | mk r t0 l its subs =>
      simp only [MTree.triggerId] at ht
      subst ht
      simp [openFull, toggleOn, h]
  · intro co m st t ht h
    cases m with
    | mk r t0 l its subs =>
      simp only [MTree.triggerId] at ht
      subst ht
      simp [closeFull, toggleOff, h]
  · intro m st b hb h
    simp [openLite, hb, h]
  · intro co m st b hb h
    simp [closeLite, hb, h]

/-- Witness for claim C2's amended theorem at concrete inputs. -/
theorem claim_C2_witness :
    openFull (fun _ _ => false) [] (.mk 0 (some 1) 2 [3] .nil)
      { attr := fun e k => if e = 1 ∧ k = "aria-expanded" then some "true" else none,
        focus := none, timer := fun _ => false, anim := fun _ => false,
        cleanup := fun _ => false, style := fun _ _ => none }
      = { attr := fun e k => if e = 1 ∧ k = "aria-expanded" then some "true" else none,
          focus := none, timer := fun _ => false, anim := fun _ => false,
          cleanup := fun _ => false, style := fun _ _ => none }
    ∧ closeFull (fun _ _ => false) (.mk 0 (some 1) 2 [3] .nil)
      { attr := fun e k => if e = 1 ∧ k = "aria-expanded" then some "false" else none,
        focus := none, timer := fun _ => false, anim := fun _ => false,
        cleanup := fun _ => false, style := fun _ _ => none }
      = { attr := fun e k => if e = 1 ∧ k = "aria-expanded" then some "false" else none,
          focus := none, timer := fun _ => false, anim := fun _ => false,
          cleanup := fun _ => false, style := fun _ _ => none }
    ∧ openLite ⟨0, some 1, 2, [3], none⟩
      { attr := fun e k => if e = 1 ∧ k = "aria-expanded" then some "true" else none,
        focus := none, hasOpen := fun _ => false }
      = { attr := fun e k => if e = 1 ∧ k = "aria-expanded" then some "true" else none,
          focus := none, hasOpen := fun _ => false }
    ∧ closeLite (fun _ _ => false) ⟨0, some 1, 2, [3], none⟩
      { attr := fun _ _ => none, focus := none, hasOpen := fun _ => false }
      = { attr := fun _ _ => none, focus := none, hasOpen := fun _ => false } := by
  refine ⟨?_, ?_, ?_, ?_⟩
  · exact claim_C2_amended.1 _ _ _ _ 1 rfl (by simp)
  · exact claim_C2_amended.2.1 _ _ _ 1 rfl (by simp)
  · exact claim_C2_amended.2.2.1 _ _ 1 rfl (by simp)
  · exact claim_C2_amended.2.2.2 _ _ _ 1 rfl (by simp)

/-!  Claim C3: inert construction on malformed markup. -/

/-- Claim C3: the claim says construction always completes without error
and yields an inert instance when no list or no items are found.  The
lite variant does (last two conjuncts), and both variants are inert when
the list is present but no items are found (second and fourth conjuncts,
state and listener set unchanged); but the full variant evaluates
`this.listElement.querySelectorAll(...)` before any guard, so a root with
no list raises a TypeError instead of completing (first conjunct). -/
theorem claim_C3_construction :
    constructFull 0 ⟨some 1, none, [], fun _ => ""⟩ (fun _ _ => none) "r"
      = .error .typeError
    ∧ constructFull 0 ⟨some 1, some 2, [], fun _ => ""⟩ (fun _ _ => none) "r"
      = .ok (fun _ _ => none, [], false)
    ∧ constructLite 0 ⟨some 1, none, [], fun _ => ""⟩ (fun _ _ => none) "r"
      = (fun _ _ => none, [], false)
    ∧ constructLite 0 ⟨some 1, some 2, [], fun _ => ""⟩ (fun _ _ => none) "r"
      = (fun _ _ => none, [], false) := by
  exact ⟨rfl, rfl, rfl, rfl⟩

/-!  Claim C10: radio click group lookup. -/

/-- The DOM used for claim C10: item 15 sits inside the instance root 10,
but its nearest `[role="group"]` ancestor is element 19, which is outside
the root (the root itself sits inside the group). -/
def domC10 : Dom where
  ancestors := fun e =>
    if e = 15 then [15, 12, 10, 19, 100]
    else if e = 10 then [10, 19, 100]
    else if e = 19 then [19, 100]
    else [e]
  matchesSel := fun e sel => e == 19 && sel == "[role=\"group\"]"

/-- Claim C10: the claim says the click-time group lookup never misses —
including when the item's nearest group ancestor lies outside the root.
In that situation initialization keys the item under the root (third
conjunct), but the click handler resolves `target.closest(group)` without
the containment re-check (first and second conjuncts), looks up the
outside group element, finds no entry (fourth conjunct) and the non-null
assertion dereferences `undefined`: a TypeError (last conjunct). -/
theorem claim_C10_lookup :
    closestD domC10 "[role=\"group\"]" 15 = some 19
    ∧ containsD domC10 10 19 = false
    ∧ lookupGroup (buildGroups domC10 "[role=\"group\"]" 10 [15]) 10 = some [15]
    ∧ lookupGroup (buildGroups domC10 "[role=\"group\"]" 10 [15]) 19 = none
    ∧ handleRadioItemClick domC10 "[role=\"group\"]" 10
        (buildGroups domC10 "[role=\"group\"]" 10 [15]) (fun _ _ => none) 15
      = .error .typeError := by
  exact ⟨by decide, by decide, by decide, by decide, rfl⟩

/-!  Claim C5, counterexample. -/

/-- Claim C5, counterexample: the claim says an instance that has its own
trigger has all items at tabindex "-1" after initialization.  In the lite
variant `resetTabIndex` ignores the button: constructing an instance with
a button (element 1) and one focusable item (element 10) leaves that item
at tabindex "0". -/
theorem claim_C5_counterexample :
    (constructLite 9 ⟨some 1, some 2, [10], fun _ => "Item"⟩ (fun _ _ => none) "r").1
      10 "tabindex" = some "0"
    ∧ (constructLite 9 ⟨some 1, some 2, [10], fun _ => "Item"⟩ (fun _ _ => none) "r").2.2
      = true := by
  exact ⟨by decide, by decide⟩

/-!  Claim C5, amended theorem. -/

theorem isFocusable_setAttr_tabindex (a : AttrMap) (e : Nat) (v : String) (j : Nat) :
    isFocusable (setAttr a e "tabindex" v) j = isFocusable a j := by
  refine isFocusable_congr _ _ _ ?_ ?_ <;> simp [setAttr]

theorem lite_fold_go (a : AttrMap) (items : List Nat) (hnd : items.Nodup) :
    ∀ (todo done : List Nat) (acc : AttrMap),
      items = done ++ todo →
      (∀ j, isFocusable acc j = isFocusable a j) →
      (∀ i ∈ items, acc i "tabindex"
          = if i ∈ done
            then some (if done.find? (fun j => isFocusable a j) = some i then "0" else "-1")
            else none) →
      ∀ i ∈ items,
        (todo.foldl
          (fun acc2 i2 =>
            setAttr acc2 i2 "tabindex"
              (if isFocusable acc2 i2
                  && !((items.filter (fun j => isFocusable acc2 j)).any
                        (fun j => acc2 j "tabindex" == some "0")) then "0" else "-1"))
          acc) i "tabindex"
        = some (if items.find? (fun j => isFocusable a j) = some i then "0" else "-1") := by
  intro todo
  induction todo with
  | nil =>
    intro done acc hsplit hF hinv i hi
    simp only [List.append_nil] at hsplit
    subst hsplit
    simpa [hi] using hinv i hi
  | cons x xs ih =>
    intro done acc hsplit hF hinv i hi
    have hx_items : x ∈ items := by
      rw [hsplit]; exact List.mem_append_right _ (List.mem_cons_self x xs)
    have hxdone : x ∉ done := by
      have h2 := hnd
      rw [hsplit] at h2
      rcases List.nodup_append.mp h2 with ⟨_, _, hdisj⟩
      intro hmem
      exact hdisj hmem (List.mem_cons_self x xs)
    have hdone_sub : ∀ j, j ∈ done → j ∈ items := by
      intro j hj; rw [hsplit]; exact List.mem_append_left _ hj
    -- The focus check scanned by the fold body equals "done already holds a 0".
    have hany :
        ((items.filter (fun j => isFocusable acc j)).any
          (fun j => acc j "tabindex" == some "0"))
        = (done.find? (fun j => isFocusable a j)).isSome := by
      have hfilter : items.filter (fun j => isFocusable acc j)
          = items.filter (fun j => isFocusable a j) :=
        List.filter_congr (fun j _ => hF j)
      rw [hfilter]
      cases hfind : done.find? (fun j => isFocusable a j) with
      | some j =>
        have hjF : isFocusable a j = true := List.find?_some hfind
        have hjdone : j ∈ done := List.mem_of_find?_eq_some hfind
        have hjitems : j ∈ items := hdone_sub j hjdone
        have : acc j "tabindex" = some "0" := by
          rw [hinv j hjitems]
          simp [hjdone, hfind]
        simp only [Option.isSome_some]
        rw [List.any_eq_true]
        exact ⟨j, List.mem_filter.mpr ⟨hjitems, hjF⟩, by simp [this]⟩
      | none =>
        simp only [Option.isSome_none]
        rw [eq_comm, eq_comm (a := false)]
        simp only [Bool.eq_false_iff, ne_eq, List.any_eq_true, not_exists, not_and]
        intro j hj
        have hjitems : j ∈ items := (List.mem_filter.mp hj).1
        rw [hinv j hjitems]
        by_cases hjd : j ∈ done
        · simp [hjd, hfind]
        · simp [hjd]
    have hsplit2 : items = (done ++ [x]) ++ xs := by
      rw [hsplit, List.append_assoc]; rfl
    have hfind_app :
        (done ++ [x]).find? (fun j => isFocusable a j)
          = ((done.find? (fun j => isFocusable a j)).or
              (if isFocusable a x then some x else none)) := by
      rw [List.find?_append]
      cases hFx : isFocusable a x <;> simp [List.find?, hFx]
    simp only [List.foldl_cons]
    -- the state after processing x
    set v : String := if isFocusable acc x
        && !((items.filter (fun j => isFocusable acc j)).any
              (fun j => acc j "tabindex" == some "0")) then "0" else "-1" with hv
    have hF2 : ∀ j, isFocusable (setAttr acc x "tabindex" v) j = isFocusable a j := by
      intro j; rw [isFocusable_setAttr_tabindex]; exact hF j
    have hinv2 : ∀ i2 ∈ items, (setAttr acc x "tabindex" v) i2 "tabindex"
        = if i2 ∈ done ++ [x]
          then some (if (done ++ [x]).find? (fun j => isFocusable a j) = some i2
                     then "0" else "-1")
          else none := by
      intro i2 hi2
      by_cases hix : i2 = x
      · rw [hix, setAttr_same]
        have hmem : x ∈ done ++ [x] := List.mem_append_right _ (by simp)
        rw [if_pos hmem, hv, hany, hF x, hfind_app]
        cases hfind : done.find? (fun j => isFocusable a j) with
        | some j =>
          have hjdone : j ∈ done := List.mem_of_find?_eq_some hfind
          have hji : ¬(some j = some x) := by
            simp only [Option.some.injEq]
            intro h; exact hxdone (h ▸ hjdone)
          simp [Option.or, hji]
        | none =>
          cases hFx : isFocusable a x <;> simp [Option.or, hFx]
      · rw [setAttr_other _ _ _ _ _ _ (by simp [hix]), hinv i2 hi2]
        by_cases hid : i2 ∈ done
        · rw [if_pos hid, if_pos (List.mem_append_left _ hid), hfind_app]
          cases hfind : done.find? (fun j => isFocusable a j) with
          | some j => simp [Option.or]
          | none =>
            have hxi : ¬x = i2 := fun h => hix h.symm
            have hno : ¬((if isFocusable a x then some x else none) = some i2) := by
              cases hFx : isFocusable a x <;> simp [hxi]
            simp [Option.or, hno]
        · rw [if_neg hid, if_neg (by simp [List.mem_append, hid, hix])]
    exact ih (done ++ [x]) (setAttr acc x "tabindex" v) hsplit2 hF2 hinv2 i hi

theorem resetTabIndexLite_char (items : List Nat) (a : AttrMap) (hnd : items.Nodup)
    (i : Nat) (hi : i ∈ items) :
    resetTabIndexLite items a i "tabindex"
      = some (if items.find? (fun j => isFocusable a j) = some i then "0" else "-1") := by
  have hF : ∀ j, isFocusable
      (items.foldl (fun acc i2 => removeAttr acc i2 "tabindex") a) j = isFocusable a j := by
    intro j
    refine isFocusable_congr _ _ _ ?_ ?_ <;>
      rw [foldl_removeAttr_value] <;> simp
  have hinv : ∀ i2 ∈ items,
      (items.foldl (fun acc i2 => removeAttr acc i2 "tabindex") a) i2 "tabindex"
        = if i2 ∈ ([] : List Nat)
          then some (if ([] : List Nat).find? (fun j => isFocusable a j) = some i2
                     then "0" else "-1")
          else none := by
    intro i2 hi2
    rw [foldl_removeAttr_value]
    simp [hi2]
  exact lite_fold_go a items hnd items [] _ rfl hF hinv i hi

/-- Claim C5 (amended): after initialization and after every
roving-tabindex reset, the full variant behaves as claimed — an instance
with its own trigger has all items at tabindex "-1", one with no trigger
has exactly the first focusable item at "0" and the rest "-1" — while in
the lite variant the first focusable item gets "0" and the rest "-1"
regardless of whether the instance has a trigger. -/
theorem claim_C5_amended :
    (∀ (items : List Nat) (a : AttrMap) (i : Nat), i ∈ items →
      resetTabIndexFull true false items a i "tabindex" = some "-1")
    ∧ (∀ (items : List Nat) (a : AttrMap) (i : Nat), i ∈ items →
      resetTabIndexFull false false items a i "tabindex"
        = some (if items.find? (fun j => isFocusable a j) = some i then "0" else "-1"))
    ∧ (∀ (items : List Nat) (a : AttrMap), items.Nodup → ∀ i ∈ items,
      resetTabIndexLite items a i "tabindex"
        = some (if items.find? (fun j => isFocusable a j) = some i then "0" else "-1")) := by
  refine ⟨?_, ?_, ?_⟩
  · intro items a i hi
    simp only [resetTabIndexFull, Bool.true_or, if_pos]
    rw [foldl_setAttr_value]
    simp [hi]
  · intro items a i hi
    simp only [resetTabIndexFull, Bool.false_or, Bool.or_self, if_neg, Bool.false_eq_true,
      not_false_eq_true]
    rw [foldl_setAttr_value]
    simp only [hi, and_self, if_pos, true_and]
    by_cases h : items.find? (fun j => isFocusable a j) = some i
    · simp [h]
    · have : ¬(items.find? (fun j => isFocusable a j) == some i) = true := by
        simp [h]
      simp [h, this]
  · intro items a hnd i hi
    exact resetTabIndexLite_char items a hnd i hi

/-- Witness for claim C5's amended theorem at concrete inputs: items 4
(disabled) and 5, so 5 is the first focusable item. -/
theorem claim_C5_witness :
    resetTabIndexFull true false [4, 5]
      (fun e k => if e = 4 ∧ k = "disabled" then some "" else none) 4 "tabindex" = some "-1"
    ∧ resetTabIndexFull false false [4, 5]
      (fun e k => if e = 4 ∧ k = "disabled" then some "" else none) 5 "tabindex" = some "0"
    ∧ resetTabIndexLite [4, 5]
      (fun e k => if e = 4 ∧ k = "disabled" then some "" else none) 5 "tabindex" = some "0"
    ∧ resetTabIndexLite [4, 5]
      (fun e k => if e = 4 ∧ k = "disabled" then some "" else none) 4 "tabindex" = some "-1" := by
  refine ⟨?_, ?_, ?_, ?_⟩
  · exact claim_C5_amended.1 [4, 5] _ 4 (by simp)
  · have h := claim_C5_amended.2.1 [4, 5]
      (fun e k => if e = 4 ∧ k = "disabled" then some "" else none) 5 (by simp)
    rw [h]; decide
  · have h := claim_C5_amended.2.2 [4, 5]
      (fun e k => if e = 4 ∧ k = "disabled" then some "" else none) (by decide) 5 (by simp)
    rw [h]; decide
  · have h := claim_C5_amended.2.2 [4, 5]
      (fun e k => if e = 4 ∧ k = "disabled" then some "" else none) (by decide) 4 (by simp)
    rw [h]; decide

/-!  Claims C6 and C7: list keyboard navigation. -/

theorem findIdx?_cons_eq (p : Nat → Bool) (x : Nat) (xs : List Nat) :
    (x :: xs).findIdx? p = if p x then some 0 else (xs.findIdx? p).map (· + 1) := by
  simp [List.findIdx?_cons]

theorem jsIndexOf_head (x : Nat) (xs : List Nat) : jsIndexOf (x :: xs) x = 0 := by
  simp [jsIndexOf, findIdx?_cons_eq]

theorem findIdx?_getLast (l : List Nat) (hne : l ≠ []) (hnd : l.Nodup) :
    l.findIdx? (fun y => y == l.getLast hne) = some (l.length - 1) := by
  induction l with
  | nil => exact absurd rfl hne
  | cons x xs ih =>
    cases xs with
    | nil => simp [findIdx?_cons_eq]
    | cons y t =>
      have hne2 : y :: t ≠ [] := by simp
      have hlast : (x :: y :: t).getLast hne = (y :: t).getLast hne2 :=
        List.getLast_cons hne2
      have hmem : (y :: t).getLast hne2 ∈ y :: t := List.getLast_mem hne2
      have hx : x ∉ y :: t := (List.nodup_cons.mp hnd).1
      have hxne : ¬(x == (x :: y :: t).getLast hne) = true := by
        rw [hlast]
        simp only [beq_iff_eq]
        intro h
        exact hx (h ▸ hmem)
      rw [findIdx?_cons_eq, if_neg hxne]
      have heq : ((y : Nat) :: t).findIdx? (fun y2 => y2 == (x :: y :: t).getLast hne)
            = ((y : Nat) :: t).findIdx? (fun y2 => y2 == (y :: t).getLast hne2) := by
        rw [hlast]
      rw [heq, ih hne2 (List.nodup_cons.mp hnd).2]
      simp [List.length_cons]

theorem jsIndexOf_getLast (l : List Nat) (hne : l ≠ []) (hnd : l.Nodup) :
    jsIndexOf l (l.getLast hne) = (l.length : Int) - 1 := by
  have h := findIdx?_getLast l hne hnd
  have hlen : 1 ≤ l.length := List.length_pos.mpr hne
  simp only [jsIndexOf, h]
  omega

theorem get?_of_findIdx? (l : List Nat) (p : Nat → Bool) :
    ∀ i, l.findIdx? p = some i → l.get? i = l.find? p := by
  induction l with
  | nil => intro i h; simp [List.findIdx?] at h
  | cons x xs ih =>
    intro i h
    rw [findIdx?_cons_eq] at h
    by_cases hp : p x
    · rw [if_pos hp] at h
      cases h
      simp [List.find?, hp]
    · rw [if_neg hp] at h
      rcases Option.map_eq_some'.mp h with ⟨j, hj, rfl⟩
      simp only [List.get?, List.find?, hp]
      exact ih j hj

theorem findIdx?_get_self (l : List Nat) :
    ∀ (i : Nat) (hi : i < l.length), l.Nodup →
      l.findIdx? (fun y => y == l.get ⟨i, hi⟩) = some i := by
  induction l with
  | nil =>
    intro i hi _
    exact absurd hi (by simp)
  | cons x xs ih =>
    intro i hi hnd
    cases i with
    | zero =>
      rw [findIdx?_cons_eq]
      simp
    | succ j =>
      have hj : j < xs.length := by simpa using hi
      have hget : (x :: xs).get ⟨j + 1, hi⟩ = xs.get ⟨j, hj⟩ := rfl
      have hx : x ∉ xs := (List.nodup_cons.mp hnd).1
      have hne : ¬(x == (x :: xs).get ⟨j + 1, hi⟩) = true := by
        rw [hget]
        simp only [beq_iff_eq]
        intro h
        exact hx (h ▸ List.get_mem xs j hj)
      rw [findIdx?_cons_eq, if_neg hne]
      have hxs : xs.findIdx? (fun y => y == (x :: xs).get ⟨j + 1, hi⟩)
          = xs.findIdx? (fun y => y == xs.get ⟨j, hj⟩) := by rw [hget]
      rw [hxs, ih j hj (List.nodup_cons.mp hnd).2]
      rfl

theorem jsIndexOf_get_self (l : List Nat) (i : Nat) (hi : i < l.length) (hnd : l.Nodup) :
    jsIndexOf l (l.get ⟨i, hi⟩) = (i : Int) := by
  have h := findIdx?_get_self l i hi hnd
  simp only [jsIndexOf]
  rw [h]

/-- Claim C6: on every ArrowUp/ArrowDown list keydown while a focusable
item is focused, focus moves to the next/previous item of the focusable
subset `fs`, wrapping circularly — from position `ci`, ArrowDown lands on
`(ci + 1) % length` and ArrowUp on `(ci + length - 1) % length` — and in
particular ArrowDown from the last focusable item lands on the first and
ArrowUp from the first lands on the last (full-variant
`handleListKeyDown`; the lite variant computes the same
`(i ± 1 + length) % length` arithmetic). -/
theorem claim_C6_wrap (trigger : Option Nat) (isSub : Bool) (items : List Nat)
    (bi : List (Char × List Nat)) (a : AttrMap) (fs : List Nat)
    (hfs : items.filter (fun i => isFocusable a i) = fs)
    (hnd : fs.Nodup) :
    (∀ (ci : Nat) (hci : ci < fs.length),
      handleListKeyDown trigger isSub items bi a (some (fs.get ⟨ci, hci⟩)) false "ArrowDown"
        = KAction.doFocus (fs.get ⟨(ci + 1) % fs.length, Nat.mod_lt _ (by omega)⟩))
    ∧ (∀ (ci : Nat) (hci : ci < fs.length),
      handleListKeyDown trigger isSub items bi a (some (fs.get ⟨ci, hci⟩)) false "ArrowUp"
        = KAction.doFocus
            (fs.get ⟨(ci + fs.length - 1) % fs.length, Nat.mod_lt _ (by omega)⟩))
    ∧ (∀ hne : fs ≠ [],
      handleListKeyDown trigger isSub items bi a (some (fs.getLast hne)) false "ArrowDown"
        = KAction.doFocus (fs.head hne))
    ∧ (∀ hne : fs ≠ [],
      handleListKeyDown trigger isSub items bi a (some (fs.head hne)) false "ArrowUp"
        = KAction.doFocus (fs.getLast hne)) := by
  refine ⟨?_, ?_, ?_, ?_⟩
  · intro ci hci
    have hlen : 0 < fs.length := by omega
    have hidx : jsIndexOf fs fs[ci] = (ci : Int) := by
      have h := jsIndexOf_get_self fs ci hci hnd
      simpa using h
    have hcine : ¬((ci : Int) = -1) := by omega
    have hb : (ci + 1) % fs.length < fs.length := Nat.mod_lt _ hlen
    have ht : (((ci : Int) + 1) % (fs.length : Int)).toNat = (ci + 1) % fs.length := by
      have hmod : ((ci : Int) + 1) % (fs.length : Int)
          = (((ci + 1) % fs.length : Nat) : Int) := by
        push_cast
        rfl
      rw [hmod]
      rfl
    have hscrut : fs[(((ci : Int) + 1) % (fs.length : Int)).toNat]?
        = some fs[(ci + 1) % fs.length] := by
      rw [ht]
      exact List.getElem?_eq_getElem hb
    cases isSub <;>
      simp [handleListKeyDown, hfs, hidx, hcine, hscrut]
  · intro ci hci
    have hlen : 0 < fs.length := by omega
    have hidx : jsIndexOf fs fs[ci] = (ci : Int) := by
      have h := jsIndexOf_get_self fs ci hci hnd
      simpa using h
    have hcine : ¬((ci : Int) = -1) := by omega
    have hb : (ci + fs.length - 1) % fs.length < fs.length := Nat.mod_lt _ hlen
    have hcast : ((ci : Int) - 1 + (fs.length : Int))
        = (((ci + fs.length - 1) : Nat) : Int) := by
      omega
    have hmod1 : ((ci : Int) - 1 + (fs.length : Int)) % (fs.length : Int)
        = (((ci + fs.length - 1) % fs.length : Nat) : Int) := by
      rw [hcast]
      push_cast
      rfl
    have ht1 : (((ci : Int) - 1 + (fs.length : Int)) % (fs.length : Int)).toNat
        = (ci + fs.length - 1) % fs.length := by
      rw [hmod1]
      rfl
    have ht2 : (((ci : Int) - 1) % (fs.length : Int)).toNat
        = (ci + fs.length - 1) % fs.length := by
      have hstep : ((ci : Int) - 1 + (fs.length : Int) * 1) % (fs.length : Int)
          = ((ci : Int) - 1) % (fs.length : Int) :=
        Int.add_mul_emod_self_left ((ci : Int) - 1) (fs.length : Int) 1
      have h2 : ((ci : Int) - 1 + (fs.length : Int) * 1)
          = ((ci : Int) - 1 + (fs.length : Int)) := by ring
      rw [← hstep, h2, hmod1]
      rfl
    have hscrut1 : fs[(((ci : Int) - 1 + (fs.length : Int)) % (fs.length : Int)).toNat]?
        = some fs[(ci + fs.length - 1) % fs.length] := by
      rw [ht1]
      exact List.getElem?_eq_getElem hb
    have hscrut2 : fs[(((ci : Int) - 1) % (fs.length : Int)).toNat]?
        = some fs[(ci + fs.length - 1) % fs.length] := by
      rw [ht2]
      exact List.getElem?_eq_getElem hb
    cases isSub <;>
      simp [handleListKeyDown, hfs, hidx, hcine, hscrut1, hscrut2]
  · intro hne
    have hlen : 1 ≤ fs.length := List.length_pos.mpr hne
    have hlast := jsIndexOf_getLast fs hne hnd
    have hci : ¬((fs.length : Int) - 1 = -1) := by omega
    have harith : (((fs.length : Int) - 1 + 1)) % (fs.length : Int) = 0 := by
      rw [Int.sub_add_cancel, Int.emod_self]
    have hget : fs[(0 : Nat)]? = some (fs.head hne) := by
      cases fs with
      | nil => exact absurd rfl hne
      | cons f rest => simp
    cases isSub <;>
      simp [handleListKeyDown, hfs, hlast, hci, harith, hget]
  · intro hne
    have hlen : 1 ≤ fs.length := List.length_pos.mpr hne
    have hhead : jsIndexOf fs (fs.head hne) = 0 := by
      cases fs with
      | nil => exact absurd rfl hne
      | cons f rest => simp [jsIndexOf_head]
    have hci : ¬((0 : Int) = -1) := by decide
    have step1 : ((-1 : Int) + (fs.length : Int) * 1) % (fs.length : Int)
        = (-1 : Int) % (fs.length : Int) := Int.add_mul_emod_self_left (-1) _ 1
    have hmod : (-1 : Int) % (fs.length : Int) = (fs.length : Int) - 1 := by
      rw [← step1]
      have h2 : ((-1 : Int) + (fs.length : Int) * 1) = (fs.length : Int) - 1 := by ring
      rw [h2]
      exact Int.emod_eq_of_lt (by omega) (by omega)
    have harith : (((-1 : Int)) % (fs.length : Int)).toNat = fs.length - 1 := by
      rw [hmod]; omega
    have hget : fs[fs.length - 1]? = some (fs.getLast hne) := by
      rw [List.getLast_eq_getElem]
      exact List.getElem?_eq_getElem (by omega)
    cases isSub <;>
      simp [handleListKeyDown, hfs, hhead, hci, harith, hget]

theorem typeahead_index_char (ms : List Nat) (p : Nat → Bool) (hmne : ms ≠ []) :
    (match ms[(if (jsFindIdx ms p) = -1 then (0 : Int) else jsFindIdx ms p).toNat]? with
      | some f => KAction.doFocus f
      | none => KAction.errA)
    = KAction.doFocus ((ms.find? p).getD (ms.head hmne)) := by
  cases hidx : ms.findIdx? p with
  | some i =>
    have hget := get?_of_findIdx? ms p i hidx
    cases hfind : ms.find? p with
    | none =>
      exfalso
      rw [List.find?_eq_none] at hfind
      have hnone : ms.findIdx? p = none := by
        rw [List.findIdx?_eq_none_iff]
        intro x hx
        simp [hfind x hx]
      rw [hnone] at hidx
      cases hidx
    | some f =>
      rw [hfind] at hget
      have hj : jsFindIdx ms p = (i : Int) := by simp [jsFindIdx, hidx]
      rw [hj, if_neg (by omega)]
      have ht : ((i : Nat) : Int).toNat = i := by omega
      rw [ht, ← List.get?_eq_getElem?, hget]
      simp [hfind]
  | none =>
    have hj : jsFindIdx ms p = -1 := by simp [jsFindIdx, hidx]
    have hfind : ms.find? p = none := by
      rw [List.find?_eq_none]
      intro x hx
      rw [List.findIdx?_eq_none_iff] at hidx
      simp [hidx x hx]
    rw [hj, if_pos rfl]
    obtain ⟨m0, rest, rfl⟩ : ∃ m0 rest, ms = m0 :: rest := by
      cases ms with
      | nil => exact absurd rfl hmne
      | cons m0 rest => exact ⟨m0, rest, rfl⟩
    simp [hfind]

/-- Claim C7: a single-character non-whitespace key whose lowercase form
indexes a non-empty focusable subset `ms` of `itemElementsByInitial`
moves focus to the first element of `ms` (which is in document order)
whose position among the focusables `fs` is strictly after the current
focus, wrapping to the first element of `ms` when none follows. -/
theorem claim_C7_typeahead (trigger : Option Nat) (isSub : Bool) (items : List Nat)
    (bi : List (Char × List Nat)) (a : AttrMap) (key : String) (c : Char)
    (l ms fs : List Nat) (cur : Nat)
    (hfs : items.filter (fun i => isFocusable a i) = fs)
    (hkc : keyChar key = some c)
    (hbi : lookupInit bi c = some l)
    (hms : l.filter (fun i => isFocusable a i) = ms)
    (hmne : ms ≠ [])
    (hcur : jsIndexOf fs cur ≠ -1) :
    handleListKeyDown trigger isSub items bi a (some cur) false key
      = KAction.doFocus
          ((ms.find? (fun f => jsIndexOf fs f > jsIndexOf fs cur)).getD (ms.head hmne)) := by
  -- Facts about the key string derived from `keyChar key = some c`.
  obtain ⟨c0, hl, hw⟩ : ∃ c0, key.toList = [c0] ∧ c0.isWhitespace = false := by
    unfold keyChar at hkc
    cases hlist : key.toList with
    | nil => rw [hlist] at hkc; exact absurd hkc (by simp)
    | cons c1 t =>
      cases t with
      | nil =>
        rw [hlist] at hkc
        have hkc2 : (if c1.isWhitespace = true then none else some c1.toLower) = some c := hkc
        by_cases hws : c1.isWhitespace = true
        · rw [if_pos hws] at hkc2; exact absurd hkc2 (by simp)
        · exact ⟨c1, rfl, by simpa using hws⟩
      | cons c2 t2 => rw [hlist] at hkc; exact absurd hkc (by simp)
  have hlen1 : key.toList.length = 1 := by rw [hl]; rfl
  have hne_of_len : ∀ s : String, s.toList.length ≠ 1 → ¬key = s := by
    intro s hs he
    exact hs (he ▸ hlen1)
  have hTab : ¬key = "Tab" := hne_of_len _ (by decide)
  have hEnter : ¬key = "Enter" := hne_of_len _ (by decide)
  have hEscape : ¬key = "Escape" := hne_of_len _ (by decide)
  have hEnd : ¬key = "End" := hne_of_len _ (by decide)
  have hHome : ¬key = "Home" := hne_of_len _ (by decide)
  have hUp : ¬key = "ArrowUp" := hne_of_len _ (by decide)
  have hDown : ¬key = "ArrowDown" := hne_of_len _ (by decide)
  have hLeft : ¬key = "ArrowLeft" := hne_of_len _ (by decide)
  have hSpace : ¬key = " " := by
    intro he
    have h2 : key.toList = [' '] := by rw [he]; decide
    rw [hl] at h2
    have h3 : c0 = ' ' := by simpa using h2
    rw [h3] at hw
    exact absurd hw (by decide)
  have hfind_some : ((l.find? (fun i => isFocusable a i)).isSome) = true := by
    cases hfind : l.find? (fun i => isFocusable a i) with
    | some f => rfl
    | none =>
      rw [List.find?_eq_none] at hfind
      have hnil : l.filter (fun i => isFocusable a i) = [] := by
        rw [List.filter_eq_nil_iff]
        intro x hx
        simp [hfind x hx]
      rw [hms] at hnil
      exact absurd hnil hmne
  have hbe : (jsIndexOf fs cur == -1) = false := by
    simp only [beq_eq_false_iff_ne, ne_eq]
    exact hcur
  simp [handleListKeyDown, hfs, hkc, hbi, hms, hTab, hEnter, hEscape, hEnd, hHome,
    hUp, hDown, hLeft, hSpace, hfind_some, hbe]
  exact typeahead_index_char ms (fun f => decide (jsIndexOf fs cur < jsIndexOf fs f)) hmne

/-- Witness for claim C6's theorem at a concrete three-item menu with all
items focusable: interior movement from the middle item both ways, plus
both wrap endpoints. -/
theorem claim_C6_witness :
    handleListKeyDown (some 9) false [1, 2, 3] [] (fun _ _ => none) (some 2) false "ArrowDown"
      = KAction.doFocus 3
    ∧ handleListKeyDown (some 9) false [1, 2, 3] [] (fun _ _ => none) (some 2) false "ArrowUp"
      = KAction.doFocus 1
    ∧ handleListKeyDown (some 9) false [1, 2, 3] [] (fun _ _ => none) (some 3) false "ArrowDown"
      = KAction.doFocus 1
    ∧ handleListKeyDown (some 9) false [1, 2, 3] [] (fun _ _ => none) (some 1) false "ArrowUp"
      = KAction.doFocus 3 := by
  have h := claim_C6_wrap (some 9) false [1, 2, 3] [] (fun _ _ => none) [1, 2, 3]
    (by decide) (by decide)
  exact ⟨h.1 1 (by decide), h.2.1 1 (by decide), h.2.2.1 (by decide), h.2.2.2 (by decide)⟩

/-- Witness for claim C7's theorem: the spec's scenario with items
["Apple", "Banana", "Avocado"] — pressing "a" from "Apple" focuses
"Avocado", and pressing "a" again from "Avocado" wraps back to "Apple". -/
theorem claim_C7_witness :
    handleListKeyDown (some 9) false [1, 2, 3]
      (buildByInitial
        (fun i => if i = 1 then "Apple" else if i = 2 then "Banana" else "Avocado") [1, 2, 3])
      (fun _ _ => none) (some 1) false "a"
      = KAction.doFocus 3
    ∧ handleListKeyDown (some 9) false [1, 2, 3]
      (buildByInitial
        (fun i => if i = 1 then "Apple" else if i = 2 then "Banana" else "Avocado") [1, 2, 3])
      (fun _ _ => none) (some 3) false "a"
      = KAction.doFocus 1 := by
  constructor
  · exact claim_C7_typeahead (some 9) false [1, 2, 3] _ (fun _ _ => none) "a" 'a'
      [1, 3] [1, 3] [1, 2, 3] 1 (by decide) (by decide) (by decide) (by decide)
      (by decide) (by decide)
  · exact claim_C7_typeahead (some 9) false [1, 2, 3] _ (fun _ _ => none) "a" 'a'
      [1, 3] [1, 3] [1, 2, 3] 3 (by decide) (by decide) (by decide) (by decide)
      (by decide) (by decide)

/-!  Claims C1 and C8: effects of the close cascade. -/

/-- The trigger element ids of all instances in a forest. -/
def MForest.triggersF (f : MForest) : List Nat :=
  f.insts.filterMap MTree.triggerId

theorem triggers_mk (r : Nat) (t : Option Nat) (l : Nat) (its : List Nat) (subs : MForest) :
    (MTree.mk r t l its subs).triggers
      = (match t with | some tt => [tt] | none => []) ++ subs.triggersF := by
  cases t <;>
    simp [MTree.triggers, MForest.triggersF, MTree.insts, List.filterMap_cons, MTree.triggerId]

theorem triggersF_nil : MForest.nil.triggersF = [] := rfl

theorem triggersF_cons (m : MTree) (ms : MForest) :
    (MForest.cons m ms).triggersF = m.triggers ++ ms.triggersF := by
  simp [MForest.triggersF, MTree.triggers, MForest.insts, List.filterMap_append]

mutual
/-- Every `aria-expanded` write performed by the close cascade writes
"false" and targets a trigger of the closed subtree; all other attributes
are untouched. -/
theorem toggleOff_attr_cases (co : Nat → Nat → Bool) (m : MTree) (st : St)
    (e : Nat) (k : String) :
    (toggleOff co m st).attr e k = st.attr e k
    ∨ (e ∈ m.triggers ∧ k = "aria-expanded"
        ∧ (toggleOff co m st).attr e k = some "false") := by
  cases m with
  | mk r t l its subs =>
    rw [toggleOff.eq_def]
    simp only []
    by_cases hg : (match t with
        | some tt => st.attr tt "aria-expanded" == some "false"
        | none => false) = true
    · rw [if_pos hg]
      exact Or.inl rfl
    · rw [if_neg hg]
      have hsubT : ∀ x, x ∈ subs.triggersF → x ∈ (MTree.mk r t l its subs).triggers := by
        rw [triggers_mk]
        exact fun x h => List.mem_append_right _ h
      cases t with
      | none =>
        cases subs with
        | nil => exact Or.inl rfl
        | cons s ss =>
          dsimp only
          simp only [Option.isSome_none, Bool.false_and, Bool.false_eq_true, if_false]
          rcases closeForest_attr_cases co (MForest.cons s ss)
              { st with timer := fun x => if x = r then false else st.timer x } e k with
            h | ⟨hmem, hk, hval⟩
          · exact Or.inl h
          · exact Or.inr ⟨hsubT e hmem, hk, hval⟩
      | some tt =>
        have htrig : tt ∈ (MTree.mk r (some tt) l its subs).triggers := by
          rw [triggers_mk]
          exact List.mem_append_left _ (by simp)
        have h1 : ∀ e2 k2,
            setAttr st.attr tt "aria-expanded" "false" e2 k2 = st.attr e2 k2
            ∨ (e2 ∈ (MTree.mk r (some tt) l its subs).triggers ∧ k2 = "aria-expanded"
                ∧ setAttr st.attr tt "aria-expanded" "false" e2 k2 = some "false") := by
          intro e2 k2
          by_cases he : e2 = tt ∧ k2 = "aria-expanded"
          · refine Or.inr ⟨he.1 ▸ htrig, he.2, ?_⟩
            rw [he.1, he.2]
            exact setAttr_same _ _ _ _
          · exact Or.inl (setAttr_other _ _ _ _ _ _ he)
        cases subs with
        | nil =>
          dsimp only
          split <;> ((try dsimp only); split <;> exact h1 e k)
        | cons s ss =>
          dsimp only
          rcases closeForest_attr_cases co (MForest.cons s ss)
              { st with
                attr := setAttr st.attr tt "aria-expanded" "false",
                timer := fun x => if x = r then false else st.timer x } e k with
            h | ⟨hmem, hk, hval⟩
          · split <;> ((try dsimp only); split <;> (rw [h]; exact h1 e k))
          · split <;> ((try dsimp only); split <;> exact Or.inr ⟨hsubT e hmem, hk, hval⟩)
/-- Forest version of `toggleOff_attr_cases`. -/
theorem closeForest_attr_cases (co : Nat → Nat → Bool) (f : MForest) (st : St)
    (e : Nat) (k : String) :
    (closeForest co f st).attr e k = st.attr e k
    ∨ (e ∈ f.triggersF ∧ k = "aria-expanded"
        ∧ (closeForest co f st).attr e k = some "false") := by
  cases f with
  | nil => exact Or.inl rfl
  | cons m ms =>
    rw [closeForest.eq_def]
    simp only []
    rcases closeForest_attr_cases co ms (toggleOff co m st) e k with h | ⟨hmem, hk, hval⟩
    · rcases toggleOff_attr_cases co m st e k with h2 | ⟨hmem2, hk2, hval2⟩
      · exact Or.inl (h.trans h2)
      · refine Or.inr ⟨?_, hk2, h.trans hval2⟩
        rw [triggersF_cons]
        exact List.mem_append_left _ hmem2
    · refine Or.inr ⟨?_, hk, hval⟩
      rw [triggersF_cons]
      exact List.mem_append_right _ hmem
end

/-- The attribute map produced by a non-guarded `toggle(false)`: the own
`aria-expanded` write followed by the submenu cascade; the focus,
animation and popover steps do not touch attributes. -/
theorem toggleOff_attr_formula (co : Nat → Nat → Bool) (r : Nat) (t : Option Nat) (l : Nat)
    (its : List Nat) (subs : MForest) (st : St)
    (hg : ¬(match t with
        | some tt => st.attr tt "aria-expanded" == some "false"
        | none => false) = true) :
    (toggleOff co (MTree.mk r t l its subs) st).attr
      = (match subs with
          | .nil =>
            (match t with
              | some tt => setAttr st.attr tt "aria-expanded" "false"
              | none => st.attr)
          | .cons _ _ =>
            (closeForest co subs
              { st with
                attr := (match t with
                  | some tt => setAttr st.attr tt "aria-expanded" "false"
                  | none => st.attr),
                timer := fun x => if x = r then false else st.timer x }).attr) := by
  rw [toggleOff.eq_def]
  dsimp only
  rw [if_neg hg]
  cases t with
  | none =>
    cases subs with
    | nil => rfl
    | cons s ss =>
      dsimp only
      simp only [Option.isSome_none, Bool.false_and, Bool.false_eq_true, if_false]
  | some tt =>
    cases subs with
    | nil =>
      dsimp only
      split <;> ((try dsimp only) <;> split <;> rfl)
    | cons s ss =>
      dsimp only
      split <;> ((try dsimp only) <;> split <;> rfl)

/-- The timer map produced by a non-guarded `toggle(false)`. -/
theorem toggleOff_timer_formula (co : Nat → Nat → Bool) (r : Nat) (t : Option Nat) (l : Nat)
    (its : List Nat) (subs : MForest) (st : St)
    (hg : ¬(match t with
        | some tt => st.attr tt "aria-expanded" == some "false"
        | none => false) = true) :
    (toggleOff co (MTree.mk r t l its subs) st).timer
      = (match subs with
          | .nil => st.timer
          | .cons _ _ =>
            (closeForest co subs
              { st with
                attr := (match t with
                  | some tt => setAttr st.attr tt "aria-expanded" "false"
                  | none => st.attr),
                timer := fun x => if x = r then false else st.timer x }).timer) := by
  rw [toggleOff.eq_def]
  dsimp only
  rw [if_neg hg]
  cases t with
  | none =>
    cases subs with
    | nil => rfl
    | cons s ss =>
      dsimp only
      simp only [Option.isSome_none, Bool.false_and, Bool.false_eq_true, if_false]
  | some tt =>
    cases subs with
    | nil =>
      dsimp only
      split <;> ((try dsimp only) <;> split <;> rfl)
    | cons s ss =>
      dsimp only
      split <;> ((try dsimp only) <;> split <;> rfl)

/-- The focused element after a non-guarded `toggle(false)` on an
instance with a trigger: the submenu cascade runs first, and then the
trigger is focused exactly when the active element at that point lies
inside the root. -/
theorem toggleOff_focus_formula (co : Nat → Nat → Bool) (r tt l : Nat)
    (its : List Nat) (subs : MForest) (st : St)
    (hg : ¬(st.attr tt "aria-expanded" == some "false") = true) :
    (toggleOff co (MTree.mk r (some tt) l its subs) st).focus
      = (if containsFocus co r
            (match subs with
              | .nil => st.focus
              | .cons _ _ =>
                (closeForest co subs
                  { st with
                    attr := setAttr st.attr tt "aria-expanded" "false",
                    timer := fun x => if x = r then false else st.timer x }).focus)
          then some tt
          else (match subs with
              | .nil => st.focus
              | .cons _ _ =>
                (closeForest co subs
                  { st with
                    attr := setAttr st.attr tt "aria-expanded" "false",
                    timer := fun x => if x = r then false else st.timer x }).focus)) := by
  rw [toggleOff.eq_def]
  dsimp only
  rw [if_neg hg]
  cases subs with
  | nil =>
    dsimp only
    simp only [Option.isSome_some, Bool.true_and]
    split <;> ((try dsimp only) <;> split <;> rfl)
  | cons s ss =>
    dsimp only
    simp only [Option.isSome_some, Bool.true_and]
    split <;> ((try dsimp only) <;> split <;> rfl)

mutual
/-- The close cascade either leaves the focused element alone or moves
focus to the trigger of one of the closed instances. -/
theorem toggleOff_focus_cases (co : Nat → Nat → Bool) (m : MTree) (st : St) :
    (toggleOff co m st).focus = st.focus
    ∨ ∃ tu, tu ∈ m.triggers ∧ (toggleOff co m st).focus = some tu := by
  cases m with
  | mk r t l its subs =>
    by_cases hg : (match t with
        | some tt => st.attr tt "aria-expanded" == some "false"
        | none => false) = true
    · rw [toggleOff.eq_def]
      dsimp only
      rw [if_pos hg]
      exact Or.inl rfl
    · have hsubT : ∀ x, x ∈ subs.triggersF → x ∈ (MTree.mk r t l its subs).triggers := by
        rw [triggers_mk]
        exact fun x h => List.mem_append_right _ h
      cases t with
      | some tt =>
        have htrig : tt ∈ (MTree.mk r (some tt) l its subs).triggers := by
          rw [triggers_mk]
          exact List.mem_append_left _ (by simp)
        rw [toggleOff_focus_formula co r tt l its subs st hg]
        split
        · exact Or.inr ⟨tt, htrig, rfl⟩
        · cases subs with
          | nil => exact Or.inl rfl
          | cons s ss =>
            rcases closeForest_focus_cases co (MForest.cons s ss)
                { st with
                  attr := setAttr st.attr tt "aria-expanded" "false",
                  timer := fun x => if x = r then false else st.timer x } with
              h | ⟨tu, hmem, hval⟩
            · exact Or.inl h
            · exact Or.inr ⟨tu, hsubT tu hmem, hval⟩
      | none =>
        rw [toggleOff.eq_def]
        dsimp only
        rw [if_neg hg]
        cases subs with
        | nil =>
          dsimp only
          simp only [Option.isSome_none, Bool.false_and, Bool.false_eq_true, if_false]
          exact Or.inl trivial
        | cons s ss =>
          dsimp only
          simp only [Option.isSome_none, Bool.false_and, Bool.false_eq_true, if_false]
          rcases closeForest_focus_cases co (MForest.cons s ss)
              { st with timer := fun x => if x = r then false else st.timer x } with
            h | ⟨tu, hmem, hval⟩
          · exact Or.inl h
          · exact Or.inr ⟨tu, hsubT tu hmem, hval⟩
/-- Forest version of `toggleOff_focus_cases`. -/
theorem closeForest_focus_cases (co : Nat → Nat → Bool) (f : MForest) (st : St) :
    (closeForest co f st).focus = st.focus
    ∨ ∃ tu, tu ∈ f.triggersF ∧ (closeForest co f st).focus = some tu := by
  cases f with
  | nil => exact Or.inl rfl
  | cons m ms =>
    rw [closeForest.eq_def]
    dsimp only
    rcases closeForest_focus_cases co ms (toggleOff co m st) with h | ⟨tu, hmem, hval⟩
    · rcases toggleOff_focus_cases co m st with h2 | ⟨tu, hmem2, hval2⟩
      · exact Or.inl (h.trans h2)
      · refine Or.inr ⟨tu, ?_, h.trans hval2⟩
        rw [triggersF_cons]
        exact List.mem_append_left _ hmem2
    · refine Or.inr ⟨tu, ?_, hval⟩
      rw [triggersF_cons]
      exact List.mem_append_right _ hmem
end

mutual
/-- The close cascade only ever writes `false` into the timer map. -/
theorem toggleOff_timer_cases (co : Nat → Nat → Bool) (m : MTree) (st : St) (x : Nat) :
    (toggleOff co m st).timer x = st.timer x ∨ (toggleOff co m st).timer x = false := by
  cases m with
  | mk r t l its subs =>
    by_cases hg : (match t with
        | some tt => st.attr tt "aria-expanded" == some "false"
        | none => false) = true
    · rw [toggleOff.eq_def]
      dsimp only
      rw [if_pos hg]
      exact Or.inl rfl
    · cases t with
      | none =>
        rw [toggleOff_timer_formula co r none l its subs st hg]
        cases subs with
        | nil => exact Or.inl rfl
        | cons s ss =>
          rcases closeForest_timer_cases co (MForest.cons s ss)
              { st with
                timer := fun x2 => if x2 = r then false else st.timer x2 } x with
            h | h
          · by_cases hx : x = r
            · exact Or.inr (h.trans (by simp [hx]))
            · exact Or.inl (h.trans (by simp [hx]))
          · exact Or.inr h
      | some tt =>
        rw [toggleOff_timer_formula co r (some tt) l its subs st hg]
        cases subs with
        | nil => exact Or.inl rfl
        | cons s ss =>
          rcases closeForest_timer_cases co (MForest.cons s ss)
              { st with
                attr := setAttr st.attr tt "aria-expanded" "false",
                timer := fun x2 => if x2 = r then false else st.timer x2 } x with
            h | h
          · by_cases hx : x = r
            · exact Or.inr (h.trans (by simp [hx]))
            · exact Or.inl (h.trans (by simp [hx]))
          · exact Or.inr h
/-- Forest version of `toggleOff_timer_cases`. -/
theorem closeForest_timer_cases (co : Nat → Nat → Bool) (f : MForest) (st : St) (x : Nat) :
    (closeForest co f st).timer x = st.timer x ∨ (closeForest co f st).timer x = false := by
  cases f with
  | nil => exact Or.inl rfl
  | cons m ms =>
    rw [closeForest.eq_def]
    dsimp only
    rcases closeForest_timer_cases co ms (toggleOff co m st) x with h | h
    · rcases toggleOff_timer_cases co m st x with h2 | h2
      · exact Or.inl (h.trans h2)
      · exact Or.inr (h.trans h2)
    · exact Or.inr h
end

/-- Once a trigger's `aria-expanded` reads "false", the close cascade
keeps it at "false". -/
theorem toggleOff_false_preserved (co : Nat → Nat → Bool) (m : MTree) (st : St) (e : Nat)
    (h : st.attr e "aria-expanded" = some "false") :
    (toggleOff co m st).attr e "aria-expanded" = some "false" := by
  rcases toggleOff_attr_cases co m st e "aria-expanded" with h2 | ⟨_, _, h2⟩
  · exact h2.trans h
  · exact h2

/-- Forest version of `toggleOff_false_preserved`. -/
theorem closeForest_false_preserved (co : Nat → Nat → Bool) (f : MForest) (st : St) (e : Nat)
    (h : st.attr e "aria-expanded" = some "false") :
    (closeForest co f st).attr e "aria-expanded" = some "false" := by
  rcases closeForest_attr_cases co f st e "aria-expanded" with h2 | ⟨_, _, h2⟩
  · exact h2.trans h
  · exact h2

mutual
/-- When every trigger of the subtree has `aria-expanded` not reading
"false" (so no guard cuts the cascade short) and the subtree's trigger
ids are distinct, `toggle(false)` drives every trigger of the subtree to
`aria-expanded` "false". -/
theorem toggleOff_closes (co : Nat → Nat → Bool) (m : MTree) (st : St)
    (hop : ∀ tu ∈ m.triggers, ¬st.attr tu "aria-expanded" = some "false")
    (hnd : m.triggers.Nodup) :
    ∀ tu ∈ m.triggers, (toggleOff co m st).attr tu "aria-expanded" = some "false" := by
  cases m with
  | mk r t l its subs =>
    intro tu htu
    have hmkT := triggers_mk r t l its subs
    cases t with
    | none =>
      have hg : ¬(match (none : Option Nat) with
          | some tt => st.attr tt "aria-expanded" == some "false"
          | none => false) = true := by simp
      rw [toggleOff_attr_formula co r none l its subs st hg]
      rw [hmkT] at htu
      simp only [List.nil_append] at htu
      cases subs with
      | nil => exact absurd htu (by simp [triggersF_nil])
      | cons s ss =>
        refine closeForest_closes co (MForest.cons s ss)
            { st with timer := fun x => if x = r then false else st.timer x } ?_ ?_ tu htu
        · intro v hv
          have := hop v (by rw [hmkT]; simpa using hv)
          simpa using this
        · rw [hmkT] at hnd
          simpa using hnd
    | some tt =>
      have httmem : tt ∈ (MTree.mk r (some tt) l its subs).triggers := by
        rw [hmkT]; simp
      have hg : ¬(match (some tt : Option Nat) with
          | some tt => st.attr tt "aria-expanded" == some "false"
          | none => false) = true := by
        simp only [beq_iff_eq]
        exact hop tt httmem
      rw [toggleOff_attr_formula co r (some tt) l its subs st hg]
      rw [hmkT] at htu
      simp only [List.singleton_append, List.mem_cons] at htu
      have hdisj : tt ∉ subs.triggersF := by
        rw [hmkT] at hnd
        simp only [List.singleton_append, List.nodup_cons] at hnd
        exact hnd.1
      rcases htu with rfl | htu2
      · cases subs with
        | nil => exact setAttr_same _ _ _ _
        | cons s ss =>
          exact closeForest_false_preserved co (MForest.cons s ss) _ tu
            (setAttr_same _ _ _ _)
      · cases subs with
        | nil => exact absurd htu2 (by simp [triggersF_nil])
        | cons s ss =>
          refine closeForest_closes co (MForest.cons s ss)
              { st with
                attr := setAttr st.attr tt "aria-expanded" "false",
                timer := fun x => if x = r then false else st.timer x } ?_ ?_ tu htu2
          · intro v hv
            have hvne : ¬(v = tt ∧ "aria-expanded" = "aria-expanded") := by
              intro hc
              exact absurd (hc.1 ▸ hv) hdisj
            show ¬setAttr st.attr tt "aria-expanded" "false" v "aria-expanded" = some "false"
            rw [setAttr_other _ _ _ _ _ _ hvne]
            exact hop v (by rw [hmkT]; simp [hv])
          · rw [hmkT] at hnd
            simp only [List.singleton_append, List.nodup_cons] at hnd
            exact hnd.2
/-- Forest version of `toggleOff_closes`. -/
theorem closeForest_closes (co : Nat → Nat → Bool) (f : MForest) (st : St)
    (hop : ∀ tu ∈ f.triggersF, ¬st.attr tu "aria-expanded" = some "false")
    (hnd : f.triggersF.Nodup) :
    ∀ tu ∈ f.triggersF, (closeForest co f st).attr tu "aria-expanded" = some "false" := by
  cases f with
  | nil => intro tu htu; exact absurd htu (by simp [triggersF_nil])
  | cons m ms =>
    intro tu htu
    rw [closeForest.eq_def]
    dsimp only
    rw [triggersF_cons] at htu hop hnd
    rcases List.nodup_append.mp hnd with ⟨hnd1, hnd2, hdisj⟩
    rcases List.mem_append.mp htu with h1 | h2
    · have := toggleOff_closes co m st
        (fun v hv => hop v (List.mem_append_left _ hv)) hnd1 tu h1
      exact closeForest_false_preserved co ms _ tu this
    · refine closeForest_closes co ms (toggleOff co m st) ?_ hnd2 tu h2
      intro v hv
      rcases toggleOff_attr_cases co m st v "aria-expanded" with heq | ⟨hmem, _, _⟩
      · rw [heq]
        exact hop v (List.mem_append_right _ hv)
      · exact absurd hv (by intro hc; exact (hdisj hmem hc).elim)
end

/-- `close()` on a registered instance always leaves that instance's own
trigger at `aria-expanded` "false": the guard only short-circuits when it
already reads "false", and otherwise the cascade writes "false". -/
theorem toggleOff_root_false (co : Nat → Nat → Bool) (m : MTree) (st : St) (tb : Nat)
    (h : m.triggerId = some tb) :
    (toggleOff co m st).attr tb "aria-expanded" = some "false" := by
  cases m with
  | mk r t l its subs =>
    simp only [MTree.triggerId] at h
    subst h
    by_cases hg : (st.attr tb "aria-expanded" == some "false") = true
    · rw [toggleOff.eq_def]
      dsimp only
      rw [if_pos hg]
      exact beq_iff_eq.mp hg
    · rw [toggleOff_attr_formula co r (some tb) l its subs st hg]
      cases subs with
      | nil => exact setAttr_same _ _ _ _
      | cons s ss =>
        exact closeForest_false_preserved co (MForest.cons s ss) _ tb (setAttr_same _ _ _ _)

/-- The exclusivity sweep preserves an `aria-expanded` already at
"false". -/
theorem sweep_false_preserved (co : Nat → Nat → Bool) (l : List MTree) (st : St) (e : Nat)
    (h : st.attr e "aria-expanded" = some "false") :
    (l.foldl (fun s b => toggleOff co b s) st).attr e "aria-expanded" = some "false" := by
  induction l generalizing st with
  | nil => exact h
  | cons x xs ih => exact ih _ (toggleOff_false_preserved co x st e h)

/-- After the exclusivity sweep, the trigger of every swept instance
reads `aria-expanded` "false". -/
theorem sweep_closes (co : Nat → Nat → Bool) (l : List MTree) (st : St) :
    ∀ b ∈ l, ∀ tb, b.triggerId = some tb →
      (l.foldl (fun s b2 => toggleOff co b2 s) st).attr tb "aria-expanded" = some "false" := by
  induction l generalizing st with
  | nil => intro b hb; exact absurd hb (by simp)
  | cons x xs ih =>
    intro b hb tb htb
    rcases List.mem_cons.mp hb with rfl | hb2
    · exact sweep_false_preserved co xs _ tb (toggleOff_root_false co b st tb htb)
    · exact ih _ b hb2 tb htb

/-- The exclusivity sweep does not touch any attribute of an element that
is not a trigger of any swept subtree. -/
theorem sweep_frame (co : Nat → Nat → Bool) (l : List MTree) (st : St) (e : Nat) (k : String)
    (h : ∀ b ∈ l, e ∉ b.triggers) :
    (l.foldl (fun s b => toggleOff co b s) st).attr e k = st.attr e k := by
  induction l generalizing st with
  | nil => rfl
  | cons x xs ih =>
    have hx := h x (by simp)
    rcases toggleOff_attr_cases co x st e k with heq | ⟨hmem, _, _⟩
    · rw [List.foldl_cons, ih _ (fun b hb => h b (by simp [hb]))]
      exact heq
    · exact absurd hmem hx

/-- The attribute map produced by a non-guarded `toggle(true)` on an
instance with a trigger: the own `aria-expanded` "true" write followed by
the exclusivity sweep; the style, popover, focus and animation steps do
not touch attributes. -/
theorem toggleOn_attr_formula (co : Nat → Nat → Bool) (reg : List MTree) (r ta l : Nat)
    (its : List Nat) (subs : MForest) (st : St)
    (hg : ¬(st.attr ta "aria-expanded" == some "true") = true) :
    (toggleOn co reg (MTree.mk r (some ta) l its subs) st).attr
      = ((reg.filter (fun b => !(co b.rootId r))).foldl (fun s b => toggleOff co b s)
          { st with attr := setAttr st.attr ta "aria-expanded" "true" }).attr := by
  rw [toggleOn.eq_def]
  dsimp only
  rw [if_neg hg]
  dsimp only
  split <;> ((try dsimp only); split <;> rfl)

/-- Claim C1, counterexample: the claim says an instance whose root is
contained by the opening instance's root (a descendant) remains open.
With registered instances A (root 0, trigger 1) and D (root 5, trigger 6)
where A's root contains D's root, D open and A closed, opening A sweeps
`Menu.menus.filter(menu => !menu.rootElement.contains(this.rootElement))`,
which includes the descendant D, and closes it. -/
theorem claim_C1_counterexample :
    (fun x y => (x = 0 && (y = 0 || y = 5)) || (x = 5 && y = 5) : Nat → Nat → Bool) 0 5 = true
    ∧ (fun x y => (x = 0 && (y = 0 || y = 5)) || (x = 5 && y = 5) : Nat → Nat → Bool) 5 0 = false
    ∧ (toggleOn (fun x y => (x = 0 && (y = 0 || y = 5)) || (x = 5 && y = 5))
        [MTree.mk 0 (some 1) 2 [3] .nil, MTree.mk 5 (some 6) 7 [8] .nil]
        (MTree.mk 0 (some 1) 2 [3] .nil)
        { attr := fun e k => if e = 6 ∧ k = "aria-expanded" then some "true" else none,
          focus := none, timer := fun _ => false, anim := fun _ => false,
          cleanup := fun _ => false, style := fun _ _ => none }).attr 6 "aria-expanded"
      = some "false"
    ∧ (fun e k => if e = 6 ∧ k = "aria-expanded" then some "true" else none : AttrMap)
        6 "aria-expanded" = some "true" := by
  refine ⟨by decide, by decide, by decide, by decide⟩

/-- Claim C1 (amended): when instance A (trigger `ta`) transitions to
open, `close()` is issued to every registered instance whose root does
not contain A's root — including descendants of A, which are closed, not
exempted — so each such instance's trigger ends at `aria-expanded`
"false"; only instances whose root contains A's root are left untouched:
any element that is not A's trigger and not a trigger inside a swept
subtree keeps its `aria-expanded` value, and A's own trigger ends at
"true". -/
theorem claim_C1_amended (co : Nat → Nat → Bool) (reg : List MTree) (a : MTree) (st : St)
    (ta : Nat) (hta : a.triggerId = some ta)
    (hguard : ¬st.attr ta "aria-expanded" = some "true") :
    (∀ b ∈ reg, co b.rootId a.rootId = false → ∀ tb, b.triggerId = some tb →
      (toggleOn co reg a st).attr tb "aria-expanded" = some "false")
    ∧ (∀ e, e ≠ ta → (∀ b ∈ reg, co b.rootId a.rootId = false → e ∉ b.triggers) →
      (toggleOn co reg a st).attr e "aria-expanded" = st.attr e "aria-expanded")
    ∧ ((∀ b ∈ reg, co b.rootId a.rootId = false → ta ∉ b.triggers) →
      (toggleOn co reg a st).attr ta "aria-expanded" = some "true") := by
  cases a with
  | mk r t l its subs =>
    simp only [MTree.triggerId] at hta
    subst hta
    simp only [MTree.rootId]
    have hg : ¬(st.attr ta "aria-expanded" == some "true") = true := by
      simp only [beq_iff_eq]
      exact hguard
    have hform := toggleOn_attr_formula co reg r ta l its subs st hg
    have hfilter : ∀ b, b ∈ reg.filter (fun b2 => !(co b2.rootId r)) ↔
        (b ∈ reg ∧ co b.rootId r = false) := by
      intro b
      rw [List.mem_filter]
      simp
    refine ⟨?_, ?_, ?_⟩
    · intro b hb hco tb htb
      rw [hform]
      exact sweep_closes co _ _ b ((hfilter b).mpr ⟨hb, hco⟩) tb htb
    · intro e hne hnotrig
      rw [hform]
      rw [sweep_frame co _ _ e "aria-expanded"
        (fun b hb => hnotrig b ((hfilter b).mp hb).1 ((hfilter b).mp hb).2)]
      exact setAttr_other _ _ _ _ _ _ (by simp [hne])
    · intro hnotrig
      rw [hform]
      rw [sweep_frame co _ _ ta "aria-expanded"
        (fun b hb => hnotrig b ((hfilter b).mp hb).1 ((hfilter b).mp hb).2)]
      exact setAttr_same _ _ _ _

/-- Containment function for the C1 witness page: root 10 contains
root 0, which contains root 5; root 20 is unrelated. -/
def claim_C1_witness_co : Nat → Nat → Bool := fun x y =>
  (x = 10 && (y = 10 || y = 0 || y = 5 || y = 1 || y = 11))
  || (x = 0 && (y = 0 || y = 5 || y = 1))
  || (x = 5 && y = 5) || (x = 20 && (y = 20 || y = 21))

/-- Registry for the C1 witness: A (root 0), D (root 5, descendant of A),
E (root 10, ancestor of A), B (root 20, unrelated). -/
def claim_C1_witness_reg : List MTree :=
  [MTree.mk 0 (some 1) 2 [3] .nil, MTree.mk 5 (some 6) 7 [8] .nil,
   MTree.mk 10 (some 11) 12 [13] .nil, MTree.mk 20 (some 21) 22 [23] .nil]

/-- Initial state for the C1 witness: D, E and B open, A closed. -/
def claim_C1_witness_st : St where
  attr := fun e k =>
    if k = "aria-expanded" ∧ (e = 6 ∨ e = 11 ∨ e = 21) then some "true"
    else if k = "aria-expanded" ∧ e = 1 then some "false" else none
  focus := none
  timer := fun _ => false
  anim := fun _ => false
  cleanup := fun _ => false
  style := fun _ _ => none

/-- Witness for claim C1's amended theorem: registry with the opening
instance A (root 0), an unrelated open instance B (root 20, closed by the
sweep), a descendant D (root 5, also closed), and an ancestor E (root 10,
whose root contains A's root: untouched, stays "true"); A's trigger ends
"true". -/
theorem claim_C1_witness :
    (toggleOn claim_C1_witness_co claim_C1_witness_reg
        (MTree.mk 0 (some 1) 2 [3] .nil) claim_C1_witness_st).attr 21 "aria-expanded"
      = some "false"
    ∧ (toggleOn claim_C1_witness_co claim_C1_witness_reg
        (MTree.mk 0 (some 1) 2 [3] .nil) claim_C1_witness_st).attr 6 "aria-expanded"
      = some "false"
    ∧ (toggleOn claim_C1_witness_co claim_C1_witness_reg
        (MTree.mk 0 (some 1) 2 [3] .nil) claim_C1_witness_st).attr 11 "aria-expanded"
      = claim_C1_witness_st.attr 11 "aria-expanded"
    ∧ (toggleOn claim_C1_witness_co claim_C1_witness_reg
        (MTree.mk 0 (some 1) 2 [3] .nil) claim_C1_witness_st).attr 1 "aria-expanded"
      = some "true" := by
  have h := claim_C1_amended claim_C1_witness_co claim_C1_witness_reg
    (MTree.mk 0 (some 1) 2 [3] .nil) claim_C1_witness_st 1 rfl (by decide)
  refine ⟨?_, ?_, ?_, ?_⟩
  · exact h.1 (MTree.mk 20 (some 21) 22 [23] .nil) (by simp [claim_C1_witness_reg])
      (by decide) 21 rfl
  · exact h.1 (MTree.mk 5 (some 6) 7 [8] .nil) (by simp [claim_C1_witness_reg])
      (by decide) 6 rfl
  · exact h.2.1 11 (by decide) (by decide)
  · exact h.2.2 (by decide)

/-- Claim C8, counterexample: two failures of the claim as stated.
First, `close()` cancels the pending hover-intent timer only inside
`if (this.submenus.length)`, so an instance with no submenus keeps its
pending timer (first two conjuncts).  Second, the recursive close stops
at an already-closed submenu: with parent P (trigger 1) open, submenu S
(trigger 4) already closed, and S's submenu T (trigger 7) open, closing P
leaves T open (last two conjuncts), so not all child submenus are closed
recursively. -/
theorem claim_C8_counterexample :
    (toggleOff (fun _ _ => false) (MTree.mk 0 (some 1) 2 [3] .nil)
        { attr := fun e k => if e = 1 ∧ k = "aria-expanded" then some "true" else none,
          focus := none, timer := fun x => x = 0, anim := fun _ => false,
          cleanup := fun _ => false, style := fun _ _ => none }).timer 0 = true
    ∧ (fun x => (x = 0 : Bool)) 0 = true
    ∧ (toggleOff (fun _ _ => false)
        (MTree.mk 0 (some 1) 2 []
          (.cons (MTree.mk 3 (some 4) 5 [] (.cons (MTree.mk 6 (some 7) 8 [] .nil) .nil)) .nil))
        { attr := fun e k =>
            if k = "aria-expanded" ∧ e = 1 then some "true"
            else if k = "aria-expanded" ∧ e = 4 then some "false"
            else if k = "aria-expanded" ∧ e = 7 then some "true" else none,
          focus := none, timer := fun _ => false, anim := fun _ => false,
          cleanup := fun _ => false, style := fun _ _ => none }).attr 7 "aria-expanded"
      = some "true"
    ∧ (7 : Nat) ∈ (MTree.mk 0 (some 1) 2 []
        (.cons (MTree.mk 3 (some 4) 5 [] (.cons (MTree.mk 6 (some 7) 8 [] .nil) .nil))
          .nil)).triggers := by
  refine ⟨by decide, by decide, by decide, by decide⟩

/-- Claim C8 (amended): for an instance with a trigger whose whole
subtree is open (no guard cuts the cascade) and whose subtree trigger ids
are distinct, `close()` cancels the pending hover-intent timer when the
instance has at least one child submenu (with no submenus the timer is
not cancelled), recursively drives every subtree trigger to
`aria-expanded` "false", and, when the subtree's triggers sit inside the
root and focus rests inside the root, returns focus to this instance's
own trigger — not a submenu's; and it never touches the `aria-expanded`
of any element outside its own subtree's triggers (closing a submenu
never closes its ancestor). -/
theorem claim_C8_amended (co : Nat → Nat → Bool) (m : MTree) (st : St) (t : Nat)
    (hta : m.triggerId = some t)
    (hop : ∀ tu ∈ m.triggers, st.attr tu "aria-expanded" = some "true")
    (hnd : m.triggers.Nodup) :
    (m.subs ≠ .nil → (toggleOff co m st).timer m.rootId = false)
    ∧ (∀ tu ∈ m.triggers, (toggleOff co m st).attr tu "aria-expanded" = some "false")
    ∧ ((∀ tu ∈ m.triggers, co m.rootId tu = true) →
        containsFocus co m.rootId st.focus = true →
        (toggleOff co m st).focus = some t)
    ∧ (∀ e k, e ∉ m.triggers → (toggleOff co m st).attr e k = st.attr e k) := by
  cases m with
  | mk r t0 l its subs =>
    simp only [MTree.triggerId] at hta
    subst hta
    simp only [MTree.rootId, MTree.subs]
    have htmem : t ∈ (MTree.mk r (some t) l its subs).triggers := by
      rw [triggers_mk]; simp
    have hg : ¬(st.attr t "aria-expanded" == some "false") = true := by
      simp only [beq_iff_eq]
      rw [hop t htmem]
      simp
    refine ⟨?_, ?_, ?_, ?_⟩
    · intro hsub
      cases subs with
      | nil => exact absurd rfl hsub
      | cons s ss =>
        rw [toggleOff_timer_formula co r (some t) l its (.cons s ss) st hg]
        rcases closeForest_timer_cases co (MForest.cons s ss)
            { st with
              attr := setAttr st.attr t "aria-expanded" "false",
              timer := fun x => if x = r then false else st.timer x } r with
          h | h
        · exact h.trans (by simp)
        · exact h
    · exact toggleOff_closes co _ st
        (fun tu htu => by rw [hop tu htu]; simp) hnd
    · intro hins hfoc
      rw [toggleOff_focus_formula co r t l its subs st hg]
      cases subs with
      | nil =>
        rw [if_pos hfoc]
      | cons s ss =>
        have hsubT : ∀ x, x ∈ (MForest.cons s ss).triggersF →
            x ∈ (MTree.mk r (some t) l its (.cons s ss)).triggers := by
          rw [triggers_mk]
          exact fun x h => List.mem_append_right _ h
        rcases closeForest_focus_cases co (MForest.cons s ss)
            { st with
              attr := setAttr st.attr t "aria-expanded" "false",
              timer := fun x => if x = r then false else st.timer x } with
          h | ⟨tu, hmem, hval⟩
        · rw [h]
          exact if_pos hfoc
        · rw [hval]
          have : containsFocus co r (some tu) = true := hins tu (hsubT tu hmem)
          rw [if_pos this]
    · intro e k hnot
      rcases toggleOff_attr_cases co (MTree.mk r (some t) l its subs) st e k with
        h | ⟨hmem, _, _⟩
      · exact h
      · exact absurd hmem hnot

/-- Initial state for the C8 witness: parent (trigger 1), submenu
(trigger 4) and grand-submenu (trigger 7) all open, a pending timer on
the parent root 0, and focus on item 9 inside the root. -/
def claim_C8_witness_st : St where
  attr := fun e k =>
    if k = "aria-expanded" ∧ (e = 1 ∨ e = 4 ∨ e = 7) then some "true" else none
  focus := some 9
  timer := fun x => x = 0
  anim := fun _ => false
  cleanup := fun _ => false
  style := fun _ _ => none

/-- Containment for the C8 witness: root 0 contains the triggers and the
focused item. -/
def claim_C8_witness_co : Nat → Nat → Bool := fun x y =>
  x = 0 && (y = 0 || y = 1 || y = 4 || y = 7 || y = 9)

/-- Witness for claim C8's amended theorem on a concrete all-open chain
parent → submenu → grand-submenu. -/
theorem claim_C8_witness :
    (toggleOff claim_C8_witness_co
        (MTree.mk 0 (some 1) 2 []
          (.cons (MTree.mk 3 (some 4) 5 [] (.cons (MTree.mk 6 (some 7) 8 [] .nil) .nil)) .nil))
        claim_C8_witness_st).timer 0 = false
    ∧ (toggleOff claim_C8_witness_co
        (MTree.mk 0 (some 1) 2 []
          (.cons (MTree.mk 3 (some 4) 5 [] (.cons (MTree.mk 6 (some 7) 8 [] .nil) .nil)) .nil))
        claim_C8_witness_st).attr 7 "aria-expanded" = some "false"
    ∧ (toggleOff claim_C8_witness_co
        (MTree.mk 0 (some 1) 2 []
          (.cons (MTree.mk 3 (some 4) 5 [] (.cons (MTree.mk 6 (some 7) 8 [] .nil) .nil)) .nil))
        claim_C8_witness_st).focus = some 1
    ∧ (toggleOff claim_C8_witness_co
        (MTree.mk 0 (some 1) 2 []
          (.cons (MTree.mk 3 (some 4) 5 [] (.cons (MTree.mk 6 (some 7) 8 [] .nil) .nil)) .nil))
        claim_C8_witness_st).attr 100 "aria-expanded"
      = claim_C8_witness_st.attr 100 "aria-expanded" := by
  have h := claim_C8_amended claim_C8_witness_co
    (MTree.mk 0 (some 1) 2 []
      (.cons (MTree.mk 3 (some 4) 5 [] (.cons (MTree.mk 6 (some 7) 8 [] .nil) .nil)) .nil))
    claim_C8_witness_st 1 rfl (by decide) (by decide)
  refine ⟨?_, ?_, ?_, ?_⟩
  · exact h.1 (fun hc => MForest.noConfusion hc)
  · exact h.2.1 7 (by decide)
  · exact h.2.2.1 (by decide) (by decide)
  · exact h.2.2.2 100 "aria-expanded" (by decide)

/-!  Claim C4: radio group invariant. -/

theorem lookupGroup_cons (k : Nat) (l : List Nat) (rest : List (Nat × List Nat)) (g2 : Nat) :
    lookupGroup ((k, l) :: rest) g2 = if k = g2 then some l else lookupGroup rest g2 := by
  by_cases h : k = g2
  · subst h
    simp [lookupGroup, List.find?]
  · have hb : (k == g2) = false := by simp [h]
    simp [lookupGroup, List.find?, hb, h]

theorem lookupGroup_addToGroup (gs : List (Nat × List Nat)) (g i g2 : Nat) :
    lookupGroup (addToGroup gs g i) g2
      = if g2 = g then some (((lookupGroup gs g).getD []) ++ [i])
        else lookupGroup gs g2 := by
  induction gs with
  | nil =>
    show lookupGroup [(g, [i])] g2 = _
    rw [lookupGroup_cons]
    by_cases h : g2 = g
    · rw [if_pos h.symm, if_pos h]
      simp [lookupGroup]
    · rw [if_neg (fun hc => h hc.symm), if_neg h]
  | cons p rest ih =>
    obtain ⟨k, lv⟩ := p
    by_cases hk : k = g
    · have ha : addToGroup ((k, lv) :: rest) g i = (k, lv ++ [i]) :: rest := by
        simp [addToGroup, hk]
      rw [ha]
      by_cases h2 : g2 = g
      · have hkg2 : k = g2 := hk.trans h2.symm
        rw [lookupGroup_cons, if_pos hkg2, if_pos h2, lookupGroup_cons, if_pos hk]
        simp
      · have hkg2 : ¬k = g2 := fun hc => h2 (hc.symm.trans hk)
        rw [lookupGroup_cons, if_neg hkg2, if_neg h2, lookupGroup_cons, if_neg hkg2]
    · have ha : addToGroup ((k, lv) :: rest) g i = (k, lv) :: addToGroup rest g i := by
        simp [addToGroup, hk]
      rw [ha]
      by_cases h2 : k = g2
      · have hg2 : ¬g2 = g := fun hc => hk (h2.trans hc)
        rw [lookupGroup_cons, if_pos h2, if_neg hg2, lookupGroup_cons, if_pos h2]
      · rw [lookupGroup_cons, if_neg h2, ih]
        by_cases h3 : g2 = g
        · rw [if_pos h3, if_pos h3, lookupGroup_cons, if_neg hk]
        · rw [if_neg h3, if_neg h3, lookupGroup_cons, if_neg h2]

theorem lookupGroup_foldl (res : Nat → Nat) (items : List Nat)
    (gs : List (Nat × List Nat)) (g : Nat) :
    lookupGroup (items.foldl (fun gs2 i => addToGroup gs2 (res i) i) gs) g
      = if (items.filter (fun i => res i == g)).isEmpty
        then lookupGroup gs g
        else some (((lookupGroup gs g).getD []) ++ items.filter (fun i => res i == g)) := by
  induction items generalizing gs with
  | nil => simp
  | cons x xs ih =>
    rw [List.foldl_cons, ih]
    by_cases hx : res x = g
    · have hlk : lookupGroup (addToGroup gs (res x) x) g
          = some (((lookupGroup gs g).getD []) ++ [x]) := by
        rw [lookupGroup_addToGroup, if_pos hx.symm, hx]
      have hfilt : xs.filter (fun i => res i == g) = List.filter (fun i => res i == g) xs := rfl
      rw [show List.filter (fun i => res i == g) (x :: xs)
          = x :: List.filter (fun i => res i == g) xs by simp [List.filter_cons, hx]]
      by_cases hemp : (List.filter (fun i => res i == g) xs).isEmpty
      · rw [if_pos hemp, hlk]
        rw [List.isEmpty_iff] at hemp
        simp [hemp]
      · rw [if_neg hemp, hlk]
        simp
    · have hlk : lookupGroup (addToGroup gs (res x) x) g = lookupGroup gs g := by
        rw [lookupGroup_addToGroup, if_neg (fun h => hx h.symm)]
      rw [show List.filter (fun i => res i == g) (x :: xs)
          = List.filter (fun i => res i == g) xs by simp [List.filter_cons, hx]]
      rw [hlk]

theorem lookupGroup_buildGroups (d : Dom) (gsel : String) (rootId : Nat)
    (radios : List Nat) (g : Nat) :
    lookupGroup (buildGroups d gsel rootId radios) g
      = if (radios.filter (fun i => resolvedGroupInit d gsel rootId i == g)).isEmpty
        then none
        else some (radios.filter (fun i => resolvedGroupInit d gsel rootId i == g)) := by
  rw [buildGroups, lookupGroup_foldl]
  simp [lookupGroup]

/-- The DOM used for claim C4's counterexample: radio item 35 sits inside
the instance root 30, but its nearest `[role="group"]` ancestor is
element 39, outside the root. -/
def domC4 : Dom where
  ancestors := fun e =>
    if e = 35 then [35, 32, 30, 39, 200]
    else if e = 30 then [30, 39, 200]
    else if e = 39 then [39, 200]
    else [e]
  matchesSel := fun e sel => e == 39 && sel == "[role=\"group\"]"

/-- Claim C4, counterexample: the claim says every radio click ends with
the clicked item checked.  For a radio item whose nearest group ancestor
lies outside the instance root, the click handler's group lookup misses
(initialization keyed the item under the root) and the handler raises a
TypeError instead of running to completion, so the clicked item is not
checked. -/
theorem claim_C4_counterexample :
    closestD domC4 "[role=\"group\"]" 35 = some 39
    ∧ containsD domC4 30 39 = false
    ∧ handleRadioItemClick domC4 "[role=\"group\"]" 30
        (buildGroups domC4 "[role=\"group\"]" 30 [35]) (fun _ _ => none) 35
      = .error .typeError := by
  exact ⟨by decide, by decide, rfl⟩

/-- Claim C4 (amended): for a click on a radio item whose nearest
group-selector ancestor, if any, lies within the instance root (so the
click-time group resolution agrees with the construction-time keying),
the handler completes and establishes the invariant: the clicked item's
`aria-checked` is "true", every other radio item of the same resolved
group is "false", and exactly one item of that group is checked. -/
theorem claim_C4_amended (d : Dom) (gsel : String) (rootId : Nat) (radios : List Nat)
    (a : AttrMap) (target : Nat)
    (hnd : radios.Nodup) (ht : target ∈ radios)
    (hwithin : ∀ g, closestD d gsel target = some g → containsD d rootId g = true) :
    ∃ a2, handleRadioItemClick d gsel rootId (buildGroups d gsel rootId radios) a target
        = .ok a2
      ∧ a2 target "aria-checked" = some "true"
      ∧ (∀ i ∈ radios,
          resolvedGroupInit d gsel rootId i = resolvedGroupInit d gsel rootId target →
          i ≠ target → a2 i "aria-checked" = some "false")
      ∧ (radios.filter (fun i =>
          resolvedGroupInit d gsel rootId i == resolvedGroupInit d gsel rootId target
          && a2 i "aria-checked" == some "true")).length = 1 := by
  have hclosest : (closestD d gsel target).getD rootId
      = resolvedGroupInit d gsel rootId target := by
    rw [resolvedGroupInit]
    cases hc : closestD d gsel target with
    | none => rfl
    | some g => simp [hwithin g hc]
  have htf : target ∈ radios.filter (fun i =>
      resolvedGroupInit d gsel rootId i == resolvedGroupInit d gsel rootId target) :=
    List.mem_filter.mpr ⟨ht, by simp⟩
  have hlookup : lookupGroup (buildGroups d gsel rootId radios)
        (resolvedGroupInit d gsel rootId target)
      = some (radios.filter (fun i =>
          resolvedGroupInit d gsel rootId i == resolvedGroupInit d gsel rootId target)) := by
    rw [lookupGroup_buildGroups, if_neg]
    intro hemp
    rw [List.isEmpty_iff] at hemp
    rw [hemp] at htf
    exact absurd htf (by simp)
  refine ⟨(radios.filter (fun i =>
      resolvedGroupInit d gsel rootId i == resolvedGroupInit d gsel rootId target)).foldl
        (fun acc i => setAttr acc i "aria-checked" (if i == target then "true" else "false")) a,
    ?_, ?_, ?_, ?_⟩
  · rw [handleRadioItemClick, hclosest, hlookup]
  · rw [foldl_setAttr_value]
    simp [htf]
  · intro i hi hres hine
    rw [foldl_setAttr_value]
    have hif : i ∈ radios.filter (fun i2 =>
        resolvedGroupInit d gsel rootId i2 == resolvedGroupInit d gsel rootId target) :=
      List.mem_filter.mpr ⟨hi, by simp [hres]⟩
    simp [hif, hine]
  · have hcongr : radios.filter (fun i =>
        resolvedGroupInit d gsel rootId i == resolvedGroupInit d gsel rootId target
        && (radios.filter (fun i2 =>
              resolvedGroupInit d gsel rootId i2 == resolvedGroupInit d gsel rootId target)).foldl
            (fun acc i2 => setAttr acc i2 "aria-checked"
              (if i2 == target then "true" else "false")) a
            i "aria-checked" == some "true")
        = radios.filter (fun i => i == target) := by
      apply List.filter_congr
      intro i hi
      rw [foldl_setAttr_value]
      by_cases hres : resolvedGroupInit d gsel rootId i
          = resolvedGroupInit d gsel rootId target
      · have hif : i ∈ radios.filter (fun i2 =>
            resolvedGroupInit d gsel rootId i2 == resolvedGroupInit d gsel rootId target) :=
          List.mem_filter.mpr ⟨hi, by simp [hres]⟩
        by_cases hit : i = target
        · simp [hres, hif, hit, ht]
        · simp [hres, hif, hit]
      · have hnotin : ¬(resolvedGroupInit d gsel rootId i
            == resolvedGroupInit d gsel rootId target) = true := by
          simp [hres]
        have hit : ¬i = target := fun hc => hres (by rw [hc])
        simp [hnotin, hit, hres]
    rw [hcongr]
    rw [← List.countP_eq_length_filter]
    rw [← List.count_eq_countP]
    exact List.count_eq_one_of_mem hnd ht

/-- The DOM used for claim C4's witness: radio items 5 and 6 inside group
9, which is inside root 0. -/
def domC4w : Dom where
  ancestors := fun e =>
    if e = 5 then [5, 9, 2, 0]
    else if e = 6 then [6, 9, 2, 0]
    else if e = 9 then [9, 2, 0]
    else [e]
  matchesSel := fun e sel => e == 9 && sel == "[role=\"group\"]"

/-- Witness for claim C4's amended theorem: clicking radio item 5 in the
two-item group {5, 6}. -/
theorem claim_C4_witness :
    ∃ a2, handleRadioItemClick domC4w "[role=\"group\"]" 0
        (buildGroups domC4w "[role=\"group\"]" 0 [5, 6]) (fun _ _ => none) 5
        = .ok a2
      ∧ a2 5 "aria-checked" = some "true"
      ∧ (∀ i ∈ [5, 6],
          resolvedGroupInit domC4w "[role=\"group\"]" 0 i
            = resolvedGroupInit domC4w "[role=\"group\"]" 0 5 →
          i ≠ 5 → a2 i "aria-checked" = some "false")
      ∧ (([5, 6].filter (fun i =>
          resolvedGroupInit domC4w "[role=\"group\"]" 0 i
            == resolvedGroupInit domC4w "[role=\"group\"]" 0 5
          && a2 i "aria-checked" == some "true")).length = 1) := by
  refine claim_C4_amended domC4w "[role=\"group\"]" 0 [5, 6] (fun _ _ => none) 5
    (by decide) (by decide) ?_
  intro g hg
  have h9 : (some 9 : Option Nat) = some g := by
    rw [← hg]; decide
  injection h9 with h9e
  rw [← h9e]
  decide
